import Mathlib

/-!
Verification development for the IoT telemetry server (src/server.py).

The encrypted-telemetry pipeline, the ingestion endpoint and the weather
cache are embedded shallowly:

  * byte strings are `List Nat` with entries below 256 where it matters;
  * text strings are `List Char`;
  * machine floats that carry sensor values are modelled as `Rat`
    (the server only compares, substitutes and clamps these values, so
    rational semantics is exact for the modelled operations; binary
    float rounding of the 2-decimal display copy in the HTTP debug
    payload is float behaviour and is not modelled);
  * the AES-128 block primitive (an external library, key
    `MySecretKey12345`) is a parameter `blockDec`/`blockEnc` on 16-byte
    blocks; CBC chaining, padding and all framing are explicit;
  * fallible Python code is embedded with `Option`/`Except`; a Python
    `try`/`except` that swallows an exception maps the error case to the
    fallback value.
-/

/-! ## Small character helpers -/

/-- Value of a hexadecimal digit, upper or lower case. -/
def hexVal (c : Char) : Option Nat :=
  if '0' ≤ c ∧ c ≤ '9' then some (c.toNat - 48)
  else if 'a' ≤ c ∧ c ≤ 'f' then some (c.toNat - 87)
  else if 'A' ≤ c ∧ c ≤ 'F' then some (c.toNat - 55)
  else none

/-! ## Base64 (Python base64.b64decode, and the standard encoder) -/

/-- Character of the standard base64 alphabet for a 6-bit value. -/
def b64chr (n : Nat) : Char :=
  if n < 26 then Char.ofNat (65 + n)
  else if n < 52 then Char.ofNat (97 + (n - 26))
  else if n < 62 then Char.ofNat (48 + (n - 52))
  else if n = 62 then '+'
  else '/'

/-- Index of a character in the standard base64 alphabet. -/
def b64idx (c : Char) : Option Nat :=
  if 'A' ≤ c ∧ c ≤ 'Z' then some (c.toNat - 65)
  else if 'a' ≤ c ∧ c ≤ 'z' then some (c.toNat - 97 + 26)
  else if '0' ≤ c ∧ c ≤ '9' then some (c.toNat - 48 + 52)
  else if c = '+' then some 62
  else if c = '/' then some 63
  else none

/-- Alphabet index with default 0 (only applied to alphabet characters). -/
def b64val (c : Char) : Nat := (b64idx c).getD 0

/-- Modelled from the spec: standard padded base64 encoding, as produced by
the ESP32 producer whose firmware is not part of src/. Bytes are taken three
at a time into four alphabet characters, the final group padded with `=`. -/
def b64encode : List Nat → List Char
  | [] => []
  | [a] => [b64chr (a / 4), b64chr (a % 4 * 16), '=', '=']
  | [a, b] => [b64chr (a / 4), b64chr (a % 4 * 16 + b / 16), b64chr (b % 16 * 4), '=']
  | a :: b :: c :: rest =>
      b64chr (a / 4) :: b64chr (a % 4 * 16 + b / 16) ::
      b64chr (b % 16 * 4 + c / 64) :: b64chr (c % 64) :: b64encode rest

/-- Byte reassembly of a run of base64 data characters (padding already
stripped).  A trailing single character cannot occur: `b64decode` rejects
that shape before calling this function. -/
def b64decodeQuads : List Char → List Nat
  | c1 :: c2 :: c3 :: c4 :: rest =>
      (b64val c1 * 4 + b64val c2 / 16) ::
      (b64val c2 % 16 * 16 + b64val c3 / 4) ::
      (b64val c3 % 4 * 64 + b64val c4) :: b64decodeQuads rest
  | [c1, c2, c3] => [b64val c1 * 4 + b64val c2 / 16, b64val c2 % 16 * 16 + b64val c3 / 4]
  | [c1, c2] => [b64val c1 * 4 + b64val c2 / 16]
  | _ => []

/-- Python base64.b64decode on text: the text is ASCII-encoded (non-ASCII
raises), characters outside the alphabet and padding are discarded, the
remaining length must be a multiple of four, data stops at the first `=`,
and a leftover single data character is rejected. -/
def b64decode (cs : List Char) : Except Unit (List Nat) :=
  if ¬ cs.all (fun c => c.toNat < 128) then .error ()
  else
    let keep := cs.filter (fun c => (b64idx c).isSome ∨ c = '=')
    if keep.length % 4 ≠ 0 then .error ()
    else
      let data := keep.takeWhile (fun c => c ≠ '=')
      if data.length % 4 = 1 then .error ()
      else .ok (b64decodeQuads data)

/-! ## UTF-8 (Python str.encode / bytes.decode) -/

/-- UTF-8 encoding of a single scalar value (Lean `Char` is always a
Unicode scalar value, exactly the values Python str can hold minus
surrogates, which the pipeline never produces). -/
def utf8EncodeChar (c : Char) : List Nat :=
  let n := c.toNat
  if n < 0x80 then [n]
  else if n < 0x800 then [0xC0 + n / 64, 0x80 + n % 64]
  else if n < 0x10000 then [0xE0 + n / 4096, 0x80 + n / 64 % 64, 0x80 + n % 64]
  else [0xF0 + n / 262144, 0x80 + n / 4096 % 64, 0x80 + n / 64 % 64, 0x80 + n % 64]

/-- UTF-8 encoding of a string. -/
def utf8Encode (cs : List Char) : List Nat := (cs.map utf8EncodeChar).flatten

/-- Continuation-byte range check for the second byte of a three-byte
sequence (excludes overlong forms and surrogates, as CPython does). -/
def utf8Cont2Ok (b0 b1 : Nat) : Bool :=
  if b0 = 0xE0 then decide (0xA0 ≤ b1 ∧ b1 < 0xC0)
  else if b0 = 0xED then decide (0x80 ≤ b1 ∧ b1 < 0xA0)
  else decide (0x80 ≤ b1 ∧ b1 < 0xC0)

/-- Continuation-byte range check for the second byte of a four-byte
sequence (excludes overlong forms and values above U+10FFFF). -/
def utf8Cont3Ok (b0 b1 : Nat) : Bool :=
  if b0 = 0xF0 then decide (0x90 ≤ b1 ∧ b1 < 0xC0)
  else if b0 = 0xF4 then decide (0x80 ≤ b1 ∧ b1 < 0x90)
  else decide (0x80 ≤ b1 ∧ b1 < 0xC0)

/-- One UTF-8 scalar value at the head of the input: the decoded
character and the remaining bytes, or failure on any malformed
sequence.  Overlong forms, surrogates and values above U+10FFFF are
rejected, as CPython does. -/
def utf8DecodeOne (b0 : Nat) (rest : List Nat) : Option (Char × List Nat) :=
  if b0 < 0x80 then some (Char.ofNat b0, rest)
  else if b0 < 0xC2 then none
  else if b0 < 0xE0 then
    match rest with
    | b1 :: rest2 =>
      if 0x80 ≤ b1 ∧ b1 < 0xC0 then
        some (Char.ofNat ((b0 - 0xC0) * 64 + (b1 - 0x80)), rest2)
      else none
    | [] => none
  else if b0 < 0xF0 then
    match rest with
    | b1 :: b2 :: rest3 =>
      if utf8Cont2Ok b0 b1 ∧ (0x80 ≤ b2 ∧ b2 < 0xC0) then
        some (Char.ofNat ((b0 - 0xE0) * 4096 + (b1 - 0x80) * 64 + (b2 - 0x80)), rest3)
      else none
    | _ => none
  else if b0 < 0xF5 then
    match rest with
    | b1 :: b2 :: b3 :: rest4 =>
      if utf8Cont3Ok b0 b1 ∧ (0x80 ≤ b2 ∧ b2 < 0xC0) ∧ (0x80 ≤ b3 ∧ b3 < 0xC0) then
        some (Char.ofNat
          ((b0 - 0xF0) * 262144 + (b1 - 0x80) * 4096 + (b2 - 0x80) * 64 + (b3 - 0x80)), rest4)
      else none
    | _ => none
  else none

/-- Fuelled worker for strict UTF-8 decoding (fuel at least the length
is always sufficient, every scalar consumes at least one byte). -/
def utf8DecodeStrictFuel : Nat → List Nat → Option (List Char)
  | _, [] => some []
  | 0, _ :: _ => none
  | f + 1, b0 :: rest =>
    match utf8DecodeOne b0 rest with
    | some cr => (utf8DecodeStrictFuel f cr.2).map (fun t => cr.1 :: t)
    | none => none

/-- Strict UTF-8 decoding, Python bytes.decode with the default error
handler: any malformed sequence fails the whole decode. -/
def utf8DecodeStrict (bs : List Nat) : Option (List Char) :=
  utf8DecodeStrictFuel bs.length bs

/-- The Unicode replacement character. -/
def replChar : Char := Char.ofNat 0xFFFD

/-- Lossy UTF-8 decoding, Python bytes.decode with errors equal to
replace: each maximal invalid prefix (a bad byte, or a truncated lead
with its valid continuations) becomes one replacement character and
decoding resynchronises at the next byte. -/
def utf8DecodeReplace : List Nat → List Char
  | [] => []
  | b0 :: rest =>
    if b0 < 0x80 then Char.ofNat b0 :: utf8DecodeReplace rest
    else if b0 < 0xC2 then replChar :: utf8DecodeReplace rest
    else if b0 < 0xE0 then
      match rest with
      | [] => [replChar]
      | b1 :: rest2 =>
        if 0x80 ≤ b1 ∧ b1 < 0xC0 then
          Char.ofNat ((b0 - 0xC0) * 64 + (b1 - 0x80)) :: utf8DecodeReplace rest2
        else replChar :: utf8DecodeReplace (b1 :: rest2)
    else if b0 < 0xF0 then
      match rest with
      | [] => [replChar]
      | b1 :: rest2 =>
        if utf8Cont2Ok b0 b1 then
          match rest2 with
          | [] => [replChar]
          | b2 :: rest3 =>
            if 0x80 ≤ b2 ∧ b2 < 0xC0 then
              Char.ofNat ((b0 - 0xE0) * 4096 + (b1 - 0x80) * 64 + (b2 - 0x80)) ::
                utf8DecodeReplace rest3
            else replChar :: utf8DecodeReplace (b2 :: rest3)
        else replChar :: utf8DecodeReplace (b1 :: rest2)
    else if b0 < 0xF5 then
      match rest with
      | [] => [replChar]
      | b1 :: rest2 =>
        if utf8Cont3Ok b0 b1 then
          match rest2 with
          | [] => [replChar]
          | b2 :: rest3 =>
            if 0x80 ≤ b2 ∧ b2 < 0xC0 then
              match rest3 with
              | [] => [replChar]
              | b3 :: rest4 =>
                if 0x80 ≤ b3 ∧ b3 < 0xC0 then
                  Char.ofNat
                    ((b0 - 0xF0) * 262144 + (b1 - 0x80) * 4096 +
                      (b2 - 0x80) * 64 + (b3 - 0x80)) :: utf8DecodeReplace rest4
                else replChar :: utf8DecodeReplace (b3 :: rest4)
            else replChar :: utf8DecodeReplace (b2 :: rest3)
        else replChar :: utf8DecodeReplace (b1 :: rest2)
    else replChar :: utf8DecodeReplace rest

/-! ## Percent decoding (urllib.parse.unquote) -/

/-- Longest run of percent-escaped bytes at the head of the input:
repeated groups of a percent sign followed by two hex digits. -/
def pctRun : List Char → List Nat × List Char
  | c :: h1 :: h2 :: rest =>
    if c = '%' then
      match hexVal h1, hexVal h2 with
      | some a, some b =>
        let r := pctRun rest
        ((16 * a + b) :: r.1, r.2)
      | _, _ => ([], c :: h1 :: h2 :: rest)
    else ([], c :: h1 :: h2 :: rest)
  | l => ([], l)

/-- Fuelled worker for `unquote` (fuel is at least the input length;
every step consumes at least one character, so the fuel-exhausted arm is
unreachable from `unquote`). -/
def unquoteFuel : Nat → List Char → List Char
  | _, [] => []
  | 0, l => l
  | f + 1, c :: rest =>
    if c = '%' then
      match rest with
      | h1 :: h2 :: rest2 =>
        match hexVal h1, hexVal h2 with
        | some a, some b =>
          let r := pctRun rest2
          utf8DecodeReplace ((16 * a + b) :: r.1) ++ unquoteFuel f r.2
        | _, _ => c :: unquoteFuel f rest
      | _ => c :: unquoteFuel f rest
    else c :: unquoteFuel f rest

/-- Python urllib.parse.unquote: maximal runs of percent-escaped bytes
are decoded as UTF-8 with replacement of invalid sequences; a percent
sign not followed by two hex digits is kept literally. -/
def unquote (l : List Char) : List Char := unquoteFuel l.length l

/-! ## Cleaning of the transmitted text (server.py lines 113-122) -/

/-- Whitespace stripped by Python str.strip (the ASCII whitespace
characters; the claims never exercise non-ASCII whitespace). -/
def isStripWs (c : Char) : Bool :=
  c = ' ' ∨ c = '\t' ∨ c = '\n' ∨ c = '\r' ∨ c = '\x0b' ∨ c = '\x0c'

/-- Python str.strip. -/
def pyStrip (l : List Char) : List Char :=
  ((l.dropWhile isStripWs).reverse.dropWhile isStripWs).reverse

/-- The base64 cleaning of server.py line 116: strip, remove embedded
newlines and carriage returns, replace spaces by plus signs. -/
def cleanB64 (l : List Char) : List Char :=
  (((pyStrip l).filter (fun c => c ≠ '\n')).filter (fun c => c ≠ '\r')).map
    (fun c => if c = ' ' then '+' else c)

/-- Lines 113-122 of server.py: percent-decode, clean, and repair the
base64 length to a multiple of four by appending equal signs. -/
def preprocess (s : List Char) : List Char :=
  let s2 := cleanB64 (unquote s)
  if s2.length % 4 ≠ 0 then s2 ++ List.replicate (4 - s2.length % 4) '=' else s2

/-! ## Block layer: XOR, 16-byte chunking, CBC -/

/-- AES block size used throughout server.py. -/
def BLOCK_SIZE : Nat := 16

/-- The fixed AES-128 key bytes of server.py line 41 (the block cipher
itself is abstracted as a parameter, so the key only documents the
configuration). -/
def ENCRYPTION_KEY : List Nat := "MySecretKey12345".toList.map Char.toNat

/-- Pointwise XOR of two byte strings. -/
def xorBytes (xs ys : List Nat) : List Nat := List.zipWith Nat.xor xs ys

/-- Fuelled splitting of a byte string into 16-byte chunks (fuel at
least the length makes the fuel-exhausted arm unreachable). -/
def chunkFuel : Nat → List Nat → List (List Nat)
  | _, [] => []
  | 0, _ :: _ => []
  | f + 1, x :: xs => ((x :: xs).take 16) :: chunkFuel f ((x :: xs).drop 16)

/-- Split a byte string into 16-byte chunks. -/
def chunk16 (l : List Nat) : List (List Nat) := chunkFuel l.length l

/-- CBC decryption chaining over a chunk list: each plaintext block is
the block-decrypted ciphertext block XORed with the previous ciphertext
block (the IV for the first). -/
def cbcDecryptAux (blockDec : List Nat → List Nat) : List Nat → List (List Nat) → List (List Nat)
  | _, [] => []
  | prev, c :: rest => xorBytes (blockDec c) prev :: cbcDecryptAux blockDec c rest

/-- Semantics of cipher.decrypt for AES.new(key, AES.MODE_CBC, iv): CBC
over 16-byte blocks with the abstracted block primitive. -/
def cbcDecrypt (blockDec : List Nat → List Nat) (iv ct : List Nat) : List Nat :=
  (cbcDecryptAux blockDec iv (chunk16 ct)).flatten

/-- Modelled from the spec: producer-side CBC encryption chaining (the
ESP32 firmware is not part of src/). -/
def cbcEncryptAux (blockEnc : List Nat → List Nat) : List Nat → List (List Nat) → List (List Nat)
  | _, [] => []
  | prev, b :: rest =>
    let c := blockEnc (xorBytes b prev)
    c :: cbcEncryptAux blockEnc c rest

/-- Modelled from the spec: producer-side AES-CBC encryption of a padded
byte string. -/
def cbcEncrypt (blockEnc : List Nat → List Nat) (iv bs : List Nat) : List Nat :=
  (cbcEncryptAux blockEnc iv (chunk16 bs)).flatten

/-! ## PKCS7 padding (Crypto.Util.Padding) -/

/-- Crypto.Util.Padding.pad with the default pkcs7 style: append k
copies of the byte k where k complements the length to the next multiple
of the block size (a full extra block when already aligned). -/
def pad (data : List Nat) (block_size : Nat) : List Nat :=
  let k := block_size - data.length % block_size
  data ++ List.replicate k k

/-- Crypto.Util.Padding.unpad with the default pkcs7 style: rejects
empty input, input whose length is not a multiple of the block size, a
pad length outside 1..min(block size, length), and trailing bytes that
do not all equal the pad length. -/
def unpad (padded_data : List Nat) (block_size : Nat) : Except Unit (List Nat) :=
  if padded_data.length = 0 then .error ()
  else if padded_data.length % block_size ≠ 0 then .error ()
  else
    let padding_len := padded_data.getLastD 0
    if padding_len < 1 ∨ padding_len > min block_size padded_data.length then .error ()
    else if padded_data.drop (padded_data.length - padding_len) ≠
        List.replicate padding_len padding_len then .error ()
    else .ok (padded_data.take (padded_data.length - padding_len))

/-- Python bytes.rstrip of null bytes. -/
def rstrip0 (l : List Nat) : List Nat := (l.reverse.dropWhile (fun b => b = 0)).reverse

/-- Lines 159-166 of server.py: the manual fallback that strips
trailing nulls and re-reads the last byte as a pad length in (0,16]. -/
def manualUnpad (decrypted_padded : List Nat) : List Nat :=
  let decrypted := rstrip0 decrypted_padded
  if 0 < decrypted.length then
    let padding_length := decrypted.getLastD 0
    if padding_length ≤ 16 ∧ 0 < padding_length then
      decrypted.take (decrypted.length - padding_length)
    else decrypted
  else decrypted

/-- Lines 153-166 of server.py: strict unpad, and on ValueError the
manual fallback. -/
def removePadding (decrypted_padded : List Nat) : List Nat :=
  match unpad decrypted_padded BLOCK_SIZE with
  | .ok d => d
  | .error _ => manualUnpad decrypted_padded

/-- The padding-removal ladder as the specification words it: standard
PKCS-style removal (last byte as pad length, valid when in (0,16] with
all trailing bytes equal to it), else strip trailing nulls, re-inspect
the new last byte as a pad length in (0,16] and strip if plausible,
otherwise leave as-is.  Stated from the spec text for comparison with
`removePadding`, which is taken from the source. -/
def specPadRemoval (bs : List Nat) : List Nat :=
  let k := bs.getLastD 0
  if bs ≠ [] ∧ 0 < k ∧ k ≤ 16 ∧ (∀ x ∈ bs.drop (bs.length - k), x = k) then
    bs.take (bs.length - k)
  else
    let t := rstrip0 bs
    let k2 := t.getLastD 0
    if t ≠ [] ∧ 0 < k2 ∧ k2 ≤ 16 then t.take (t.length - k2) else t

/-! ## decrypt_data (server.py lines 108-182) -/

/-- Error classes of the body of decrypt_data: a transport decoding
failure (the base64.b64decode exception swallowed by the outer except),
the too-short early return of lines 130-132, and the block-length early
return of lines 141-145. -/
inductive DecErr where
  | decodeError
  | tooShort
  | invalidBlockLength

/-- Lines 108-182 of server.py with the three failure exits labelled:
preprocess, base64-decode, check the 16-byte minimum, split off the IV,
check block alignment, CBC-decrypt, remove padding, and UTF-8 decode
with lossy fallback. -/
def decrypt_steps (blockDec : List Nat → List Nat) (encrypted_data : List Char) :
    Except DecErr (List Char) :=
  match b64decode (preprocess encrypted_data) with
  | .error _ => .error .decodeError
  | .ok combined_data =>
    if combined_data.length < 16 then .error .tooShort
    else if (combined_data.drop 16).length % 16 ≠ 0 then .error .invalidBlockLength
    else
      let decrypted_padded :=
        cbcDecrypt blockDec (combined_data.take 16) (combined_data.drop 16)
      let decrypted := removePadding decrypted_padded
      match utf8DecodeStrict decrypted with
      | some result => .ok result
      | none => .ok (utf8DecodeReplace decrypted)

/-- decrypt_data of server.py: the same body, with every failure exit
(early return None or exception reaching the outer except) collapsed to
None as the source does. -/
def decrypt_data (blockDec : List Nat → List Nat) (encrypted_data : List Char) :
    Option (List Char) :=
  match b64decode (preprocess encrypted_data) with
  | .error _ => none
  | .ok combined_data =>
    if combined_data.length < 16 then none
    else if (combined_data.drop 16).length % 16 ≠ 0 then none
    else
      let decrypted_padded :=
        cbcDecrypt blockDec (combined_data.take 16) (combined_data.drop 16)
      let decrypted := removePadding decrypted_padded
      match utf8DecodeStrict decrypted with
      | some result => some result
      | none => some (utf8DecodeReplace decrypted)

/-- Modelled from the spec: the ESP32 producer encrypts the UTF-8 bytes
of the plaintext with PKCS7 padding and AES-128-CBC under the fixed key,
prepends the IV and base64-encodes the result. -/
def esp32Encrypt (blockEnc : List Nat → List Nat) (iv : List Nat) (pt : List Char) :
    List Char :=
  b64encode (iv ++ cbcEncrypt blockEnc iv (pad (utf8Encode pt) BLOCK_SIZE))

/-! ## JSON (Python json.loads, including the non-standard NaN and
Infinity constants and lone-surrogate escapes the json module accepts,
so that the parse-failure class is exactly json.JSONDecodeError) -/

/-- JSON values.  Integer and non-integer numbers are separate because
Python json.loads yields int or float and int() / float() treat them
differently; the non-standard constants NaN, Infinity and -Infinity,
which json.loads accepts and maps to non-finite floats, get their own
constructors because they have no rational value. -/
inductive JValue where
  | jnull
  | jbool (b : Bool)
  | jint (n : ℤ)
  | jfloat (q : ℚ)
  | jnan
  | jinf (neg : Bool)
  | jstr (s : List Char)
  | jarr (elems : List JValue)
  | jobj (members : List (List Char × JValue))

/-- Skip JSON whitespace. -/
def jsonWs (cs : List Char) : List Char :=
  cs.dropWhile (fun c => c = ' ' ∨ c = '\t' ∨ c = '\n' ∨ c = '\r')

/-- Leading decimal digits of the input, accumulating left to right:
given the value read so far, returns the full value, the number of
digits consumed, and the rest of the input. -/
def digitsValAcc (acc : Nat) : List Char → Nat × Nat × List Char
  | [] => (acc, 0, [])
  | c :: rest =>
    if '0' ≤ c ∧ c ≤ '9' then
      let r := digitsValAcc (acc * 10 + (c.toNat - 48)) rest
      (r.1, r.2.1 + 1, r.2.2)
    else (acc, 0, c :: rest)

/-- Leading decimal digits: value, digit count, rest. -/
def digitsVal (cs : List Char) : Nat × Nat × List Char := digitsValAcc 0 cs


/-- Unsigned integer part of a JSON number: a lone 0, or a nonzero digit
followed by digits. -/
def jsonUInt : List Char → Except Unit (Nat × List Char)
  | [] => .error ()
  | c :: rest =>
    if c = '0' then .ok (0, rest)
    else if '1' ≤ c ∧ c ≤ '9' then
      let r := digitsValAcc (c.toNat - 48) rest
      .ok (r.1, r.2.2)
    else .error ()

/-- Rational value of a parsed decimal literal: sign, integer part,
fraction value and digit count, decimal exponent. -/
def floatOfParts (neg : Bool) (ip fv fn : Nat) (ex : ℤ) : ℚ :=
  let mant : ℤ := ((ip * 10 ^ fn + fv : ℕ) : ℤ)
  let signed : ℤ := if neg then -mant else mant
  let base : ℚ := (signed : ℚ) / ((10 ^ fn : ℕ) : ℚ)
  if 0 ≤ ex then base * ((10 ^ ex.toNat : ℕ) : ℚ) else base / ((10 ^ (-ex).toNat : ℕ) : ℚ)

/-- Optional exponent part of a JSON number. -/
def jsonExpPart : List Char → Except Unit (Option ℤ × List Char)
  | [] => .ok (none, [])
  | c :: rest =>
    if c = 'e' ∨ c = 'E' then
      let p := match rest with
        | '+' :: r => (false, r)
        | '-' :: r => (true, r)
        | r => (false, r)
      let d := digitsVal p.2
      if d.2.1 = 0 then .error ()
      else .ok (some (if p.1 then -(d.1 : ℤ) else (d.1 : ℤ)), d.2.2)
    else .ok (none, c :: rest)

/-- JSON number literal, per the json module grammar: optional minus,
integer part without leading zeros, optional fraction, optional
exponent; an integer literal yields a Python int, anything else a
float.  The NaN and Infinity constants are not numbers in this grammar
(the scanner's number regex cannot match them); parseJ handles them as
literal constants, as the json module's scanner does. -/
def jsonNumber (cs : List Char) : Except Unit (JValue × List Char) :=
  let p := match cs with
    | '-' :: r => (true, r)
    | r => (false, r)
  match jsonUInt p.2 with
  | .error _ => .error ()
  | .ok (ip, cs2) =>
    match cs2 with
    | '.' :: cs3 =>
      let d := digitsVal cs3
      if d.2.1 = 0 then .error ()
      else
        match jsonExpPart d.2.2 with
        | .error _ => .error ()
        | .ok (oe, cs4) =>
          .ok (.jfloat (floatOfParts p.1 ip d.1 d.2.1 (oe.getD 0)), cs4)
    | _ =>
      match jsonExpPart cs2 with
      | .error _ => .error ()
      | .ok (none, cs4) => .ok (.jint (if p.1 then -(ip : ℤ) else (ip : ℤ)), cs4)
      | .ok (some e, cs4) => .ok (.jfloat (floatOfParts p.1 ip 0 0 e), cs4)

/-- Body of a JSON string after the opening quote, with escape
processing per the json module's scanstring: a high-surrogate \\u escape
followed by a low-surrogate \\u escape combines into one character; a
surrogate escape that does not pair stays a lone surrogate in Python
(never a decode error), except that a following \\u with invalid hex
digits raises.  A lone surrogate has no Lean Char representation and is
modelled as the replacement character; this keeps the accept/reject
classification exact and only approximates the value of string fields
containing lone surrogates, which no claim inspects. -/
def parseStringRestFuel : Nat → List Char → Except Unit (List Char × List Char)
  | 0, _ => .error ()
  | _ + 1, [] => .error ()
  | f + 1, c :: r =>
    if c = '"' then .ok ([], r)
    else if c = '\\' then
      match r with
      | [] => .error ()
      | e :: r2 =>
        if e = '"' ∨ e = '\\' ∨ e = '/' then
          match parseStringRestFuel f r2 with
          | .ok (s, r3) => .ok (e :: s, r3)
          | .error u => .error u
        else if e = 'b' then
          match parseStringRestFuel f r2 with
          | .ok (s, r3) => .ok ('\x08' :: s, r3)
          | .error u => .error u
        else if e = 'f' then
          match parseStringRestFuel f r2 with
          | .ok (s, r3) => .ok ('\x0c' :: s, r3)
          | .error u => .error u
        else if e = 'n' then
          match parseStringRestFuel f r2 with
          | .ok (s, r3) => .ok ('\n' :: s, r3)
          | .error u => .error u
        else if e = 'r' then
          match parseStringRestFuel f r2 with
          | .ok (s, r3) => .ok ('\r' :: s, r3)
          | .error u => .error u
        else if e = 't' then
          match parseStringRestFuel f r2 with
          | .ok (s, r3) => .ok ('\t' :: s, r3)
          | .error u => .error u
        else if e = 'u' then
          match r2 with
          | h1 :: h2 :: h3 :: h4 :: r3 =>
            match hexVal h1, hexVal h2, hexVal h3, hexVal h4 with
            | some a, some b, some c3, some d =>
              let n := 4096 * a + 256 * b + 16 * c3 + d
              if n < 0xD800 ∨ 0xDFFF < n then
                match parseStringRestFuel f r3 with
                | .ok (s, r4) => .ok (Char.ofNat n :: s, r4)
                | .error u => .error u
              else if n < 0xDC00 then
                match r3 with
                | e2 :: u2 :: g1 :: g2 :: g3 :: g4 :: r4 =>
                  if e2 = '\\' ∧ u2 = 'u' then
                    match hexVal g1, hexVal g2, hexVal g3, hexVal g4 with
                    | some a2, some b2, some c4, some d2 =>
                      let m := 4096 * a2 + 256 * b2 + 16 * c4 + d2
                      if 0xDC00 ≤ m ∧ m ≤ 0xDFFF then
                        match parseStringRestFuel f r4 with
                        | .ok (s, r5) =>
                          .ok (Char.ofNat (0x10000 + (n - 0xD800) * 1024 + (m - 0xDC00)) :: s, r5)
                        | .error u => .error u
                      else
                        match parseStringRestFuel f r3 with
                        | .ok (s, r5) => .ok (replChar :: s, r5)
                        | .error u => .error u
                    | _, _, _, _ => .error ()
                  else
                    match parseStringRestFuel f r3 with
                    | .ok (s, r5) => .ok (replChar :: s, r5)
                    | .error u => .error u
                | _ =>
                  match parseStringRestFuel f r3 with
                  | .ok (s, r5) => .ok (replChar :: s, r5)
                  | .error u => .error u
              else
                match parseStringRestFuel f r3 with
                | .ok (s, r5) => .ok (replChar :: s, r5)
                | .error u => .error u
            | _, _, _, _ => .error ()
          | _ => .error ()
        else .error ()
    else if c.toNat < 0x20 then .error ()
    else
      match parseStringRestFuel f r with
      | .ok (s, r3) => .ok (c :: s, r3)
      | .error u => .error u

/-- Body of a JSON string: the fuel of one unit per input character is
always sufficient, since every recursive step consumes at least one
character. -/
def parseStringRest (cs : List Char) : Except Unit (List Char × List Char) :=
  parseStringRestFuel cs.length cs

/-- Fuelled recursive-descent JSON parser.  Mode 0 parses one value,
mode 1 the items of a non-empty array, any other mode the members of a
non-empty object.  Fuel decreases on every call and every step consumes
input, so `json_loads` always supplies enough. -/
def parseJ : Nat → Nat → List Char → Except Unit (JValue × List Char)
  | 0, _, _ => .error ()
  | f + 1, 0, cs =>
    match jsonWs cs with
    | 'n' :: 'u' :: 'l' :: 'l' :: r => .ok (.jnull, r)
    | 't' :: 'r' :: 'u' :: 'e' :: r => .ok (.jbool true, r)
    | 'f' :: 'a' :: 'l' :: 's' :: 'e' :: r => .ok (.jbool false, r)
    | '"' :: r =>
      match parseStringRest r with
      | .ok (s, r2) => .ok (.jstr s, r2)
      | .error u => .error u
    | '[' :: r =>
      match jsonWs r with
      | ']' :: r2 => .ok (.jarr [], r2)
      | r2 =>
        match parseJ f 1 r2 with
        | .ok (v, r3) => .ok (v, r3)
        | .error u => .error u
    | '\x7b' :: r =>
      match jsonWs r with
      | '\x7d' :: r2 => .ok (.jobj [], r2)
      | r2 =>
        match parseJ f 2 r2 with
        | .ok (v, r3) => .ok (v, r3)
        | .error u => .error u
    | 'N' :: 'a' :: 'N' :: r => .ok (.jnan, r)
    | 'I' :: 'n' :: 'f' :: 'i' :: 'n' :: 'i' :: 't' :: 'y' :: r => .ok (.jinf false, r)
    | '-' :: 'I' :: 'n' :: 'f' :: 'i' :: 'n' :: 'i' :: 't' :: 'y' :: r => .ok (.jinf true, r)
    | rest => jsonNumber rest
  | f + 1, 1, cs =>
    match parseJ f 0 cs with
    | .ok (v, r) =>
      match jsonWs r with
      | ',' :: r2 =>
        match parseJ f 1 r2 with
        | .ok (JValue.jarr xs, r3) => .ok (.jarr (v :: xs), r3)
        | .ok (_, _) => .error ()
        | .error u => .error u
      | ']' :: r2 => .ok (.jarr [v], r2)
      | _ => .error ()
    | .error u => .error u
  | f + 1, _, cs =>
    match jsonWs cs with
    | '"' :: r =>
      match parseStringRest r with
      | .ok (k, r2) =>
        match jsonWs r2 with
        | ':' :: r3 =>
          match parseJ f 0 r3 with
          | .ok (v, r4) =>
            match jsonWs r4 with
            | ',' :: r5 =>
              match parseJ f 2 r5 with
              | .ok (JValue.jobj ms, r6) => .ok (.jobj ((k, v) :: ms), r6)
              | .ok (_, _) => .error ()
              | .error u => .error u
            | '\x7d' :: r5 => .ok (.jobj [(k, v)], r5)
            | _ => .error ()
          | .error u => .error u
        | _ => .error ()
      | .error u => .error u
    | _ => .error ()

/-- Python json.loads: parse one value and require only whitespace after
it. -/
def json_loads (cs : List Char) : Except Unit JValue :=
  match parseJ (2 * cs.length + 8) 0 cs with
  | .ok (v, rest) => if jsonWs rest = [] then .ok v else .error ()
  | .error _ => .error ()

/-! ## Python field conversions (float, int, dict.get) -/

/-- Python dict.get for a dict built from parsed JSON members (a
duplicate key keeps the last value). -/
def jGet (members : List (List Char × JValue)) (k : List Char) : Option JValue :=
  members.foldl (fun acc kv => if kv.1 = k then some kv.2 else acc) none

/-- Python float() on a string: optional sign, digits with optional
decimal point and exponent, surrounding whitespace allowed (underscored
literals and inf/nan spellings are outside the model). -/
def pyFloatStr (s : List Char) : Option ℚ :=
  let s1 := s.dropWhile isStripWs
  let p := match s1 with
    | '+' :: r => (false, r)
    | '-' :: r => (true, r)
    | r => (false, r)
  let d1 := digitsVal p.2
  match d1.2.2 with
  | '.' :: r3 =>
    let d2 := digitsVal r3
    if d1.2.1 + d2.2.1 = 0 then none
    else
      match jsonExpPart d2.2.2 with
      | .error _ => none
      | .ok (oe, r4) =>
        if r4.dropWhile isStripWs = [] then some (floatOfParts p.1 d1.1 d2.1 d2.2.1 (oe.getD 0))
        else none
  | r3 =>
    if d1.2.1 = 0 then none
    else
      match jsonExpPart r3 with
      | .error _ => none
      | .ok (oe, r4) =>
        if r4.dropWhile isStripWs = [] then some (floatOfParts p.1 d1.1 0 0 (oe.getD 0))
        else none

/-- Python int() on a string: optional sign and decimal digits only,
surrounding whitespace allowed. -/
def pyIntStr (s : List Char) : Option ℤ :=
  let s1 := s.dropWhile isStripWs
  let p := match s1 with
    | '+' :: r => (false, r)
    | '-' :: r => (true, r)
    | r => (false, r)
  let d := digitsVal p.2
  if d.2.1 = 0 then none
  else if d.2.2.dropWhile isStripWs = [] then
    some (if p.1 then -(d.1 : ℤ) else (d.1 : ℤ))
  else none

/-- Truncation of a rational toward zero, Python int() on a float. -/
def ratTrunc (q : ℚ) : ℤ :=
  if 0 ≤ q.num then ((q.num.toNat / q.den : ℕ) : ℤ) else -(((-q.num).toNat / q.den : ℕ) : ℤ)

/-- Exception classes that can escape the ingestion body to its outer
except handler. -/
inductive PyError where
  | attributeError
  | valueError
  | typeError
  | overflowError
  | timestampRangeError

/-- Python float() applied to a JSON value (or to the float default a
missing key returns): numbers and bools convert, numeric strings parse,
anything else raises.  On the non-finite constants Python float() is
the identity, returning a non-finite float; that value has no rational
representation, so the rational-valued model stops with the raised-error
case there — a divergence confined to non-finite-valued record fields,
which no claim's statement reaches. -/
def pyFloat : JValue → Except PyError ℚ
  | .jint n => .ok (n : ℚ)
  | .jfloat q => .ok q
  | .jnan => .error .valueError
  | .jinf _ => .error .valueError
  | .jbool b => .ok (if b then 1 else 0)
  | .jstr s =>
    match pyFloatStr s with
    | some q => .ok q
    | none => .error .valueError
  | .jnull => .error .typeError
  | .jarr _ => .error .typeError
  | .jobj _ => .error .typeError

/-- Python int() applied to a JSON value: ints stay, floats truncate
toward zero, bools convert, integer strings parse, anything else
raises; int(nan) raises ValueError and int(inf) raises OverflowError,
both uncaught by the json-only inner handler. -/
def pyInt : JValue → Except PyError ℤ
  | .jint n => .ok n
  | .jfloat q => .ok (ratTrunc q)
  | .jnan => .error .valueError
  | .jinf _ => .error .overflowError
  | .jbool b => .ok (if b then 1 else 0)
  | .jstr s =>
    match pyIntStr s with
    | some n => .ok n
    | none => .error .valueError
  | .jnull => .error .typeError
  | .jarr _ => .error .typeError
  | .jobj _ => .error .typeError

/-! ## The ingestion endpoint (server.py lines 323-398) -/

/-- The running team-number value: the raw form field (dict.get with no
default may give None), or whatever JSON value overrode it. -/
inductive TeamVal where
  | fromForm (o : Option (List Char))
  | fromJson (v : JValue)

/-- The parsed form fields of a request to /api/sensor-data.  The float
and int conversions of the form text (lines 330-335) happen before the
modelled logic; the claims quantify over the parsed values. -/
structure SensorForm where
  team_number : Option (List Char)
  temperature : ℚ
  humidity : ℚ
  timestamp : ℤ
  is_encrypted : Bool
  encrypted_data : List Char

/-- Lines 337-341 and 353-357: clamp humidity below by 0, then above by
100, as two sequential conditional assignments. -/
def clampHum (humidity : ℚ) : ℚ :=
  let h1 := if humidity < 0 then 0 else humidity
  if h1 > 100 then 100 else h1

/-- Acceptance range of datetime.fromtimestamp (line 368), the epoch
seconds of years 1 to 9999; platform-specific narrowing of this range is
not modelled. -/
def tsValid (t : ℤ) : Bool := -62135596800 ≤ t ∧ t ≤ 253402300799

/-- Key strings of the structured record. -/
def tempKey : List Char := "temperature".toList

/-- Key string for humidity. -/
def humKey : List Char := "humidity".toList

/-- Key string for timestamp. -/
def tsKey : List Char := "timestamp".toList

/-- Key string for team number. -/
def teamKey : List Char := "team_number".toList

/-- Lines 349-357: per-field override of the running values from the
decrypted structured record, with the second humidity clamp.  Only
json.JSONDecodeError is caught by the inner handler, so a conversion
failure here escapes to the outer except. -/
def applyOverrides (dd : List (List Char × JValue)) (temperature humidity : ℚ)
    (timestamp : ℤ) (team : TeamVal) : Except PyError (ℚ × ℚ × ℤ × TeamVal) :=
  match (match jGet dd tempKey with | none => Except.ok temperature | some v => pyFloat v) with
  | .error e => .error e
  | .ok t =>
    match (match jGet dd humKey with | none => Except.ok humidity | some v => pyFloat v) with
    | .error e => .error e
    | .ok h =>
      match (match jGet dd tsKey with | none => Except.ok timestamp | some v => pyInt v) with
      | .error e => .error e
      | .ok ts =>
        let team2 := match jGet dd teamKey with | none => team | some v => TeamVal.fromJson v
        .ok (t, clampHum h, ts, team2)

/-- Provenance tag of the produced record (line 381). -/
inductive Source where
  | plaintext
  | decrypted
deriving DecidableEq

/-- The row inserted into sensor_data (lines 371-374). -/
structure StoredRow where
  team_number : TeamVal
  temperature : ℚ
  humidity : ℚ
  timestamp : ℤ
  encrypted_data : List Char

/-- The sensor_payload debug record (lines 379-382), restricted to the
fields the model can state exactly: the rounded 2-decimal temperature
and humidity copies repeat the stored values through float display
rounding, which is not modelled. -/
structure SensorPayload where
  team_number : TeamVal
  timestamp : ℤ
  encrypted : Bool
  source : Source

/-- Outcome of the endpoint: the success JSON response together with the
stored row and payload it produced, or the error response of the outer
except handler. -/
inductive Response where
  | success (row : StoredRow) (payload : SensorPayload) (resp_timestamp : ℤ)
  | error (e : PyError)

/-- receive_sensor_data of server.py lines 323-398: clamp raw humidity,
decrypt and override when flagged encrypted (an empty or failed
decryption falls back to the raw values, a JSON syntax error is caught
and ignored, any other exception escapes), check the timestamp is
convertible, store, and answer success. -/
def receive_sensor_data (blockDec : List Nat → List Nat) (form : SensorForm) : Response :=
  let humidity0 := clampHum form.humidity
  let raw : Except PyError (ℚ × ℚ × ℤ × TeamVal) :=
    .ok (form.temperature, humidity0, form.timestamp, .fromForm form.team_number)
  let step : Except PyError (ℚ × ℚ × ℤ × TeamVal) :=
    if form.is_encrypted ∧ form.encrypted_data ≠ [] then
      match decrypt_data blockDec form.encrypted_data with
      | some dj =>
        if dj = [] then raw
        else
          match json_loads dj with
          | .ok (JValue.jobj dd) =>
            applyOverrides dd form.temperature humidity0 form.timestamp
              (.fromForm form.team_number)
          | .ok _ => .error .attributeError
          | .error _ => raw
      | none => raw
    else raw
  match step with
  | .error e => Response.error e
  | .ok (t, h, ts, team) =>
    if tsValid ts then
      Response.success
        { team_number := team, temperature := t, humidity := h, timestamp := ts,
          encrypted_data := form.encrypted_data }
        { team_number := team, timestamp := ts, encrypted := form.is_encrypted,
          source := if form.is_encrypted ∧ form.encrypted_data ≠ [] then .decrypted
            else .plaintext }
        ts
    else Response.error .timestampRangeError

/-- Stored humidity of a response, when one was produced. -/
def humidityOf : Response → Option ℚ
  | .success row _ _ => some row.humidity
  | .error _ => none

/-! ## The weather cache (server.py lines 541-580) -/

/-- Cache key: the two f-string shapes of line 548, as a composite of
the parts they interpolate. -/
inductive CKey where
  | coords (lat lon : Option ℚ)
  | withCity (lat lon : Option ℚ) (city : List Char)
deriving DecidableEq

/-- Key selection of line 548: the city variant when the city text is
truthy (non-empty). -/
def weatherKey (lat lon : Option ℚ) (city : List Char) : CKey :=
  if city ≠ [] then .withCity lat lon city else .coords lat lon

/-- The configured OpenWeatherMap key (line 45); only its truthiness is
ever used. -/
def WEATHER_API_KEY : List Char := "6dce1f987e127519e7d215654bc1916d".toList

/-- Cache time-to-live in seconds (line 46). -/
def WEATHER_CACHE_DURATION : ℚ := 600

/-- Dictionary lookup in the weather cache. -/
def cacheLookup {α : Type} : List (CKey × α × ℚ) → CKey → Option (α × ℚ)
  | [], _ => none
  | (k, v, t) :: rest, key => if k = key then some (v, t) else cacheLookup rest key

/-- Dictionary assignment in the weather cache. -/
def cacheInsert {α : Type} (c : List (CKey × α × ℚ)) (key : CKey) (v : α) (t : ℚ) :
    List (CKey × α × ℚ) :=
  (key, v, t) :: c.filter (fun e => e.1 ≠ key)

/-- get_weather_data of server.py lines 541-580.  The whole fetch block
(URL construction, HTTP GET, status check, field extraction) is the
`fetch` parameter: an exception or non-200 status is its error case.
The two time.time() calls are modelled by the single sample `now`.  The
third component counts invocations of the external fetch, so that the
no-call and exactly-one-call properties are statable. -/
def get_weather_data {α : Type} (fetch : Except Unit α) (now : ℚ)
    (cache : List (CKey × α × ℚ)) (lat lon : Option ℚ) (city : List Char) :
    Option α × List (CKey × α × ℚ) × Nat :=
  if WEATHER_API_KEY = [] then (none, cache, 0)
  else
    let cache_key := weatherKey lat lon city
    let doFetch : Option α × List (CKey × α × ℚ) × Nat :=
      match fetch with
      | .ok v => (some v, cacheInsert cache cache_key v now, 1)
      | .error _ => (none, cache, 1)
    match cacheLookup cache cache_key with
    | some (cached_data, cached_time) =>
      if now - cached_time < WEATHER_CACHE_DURATION then (some cached_data, cache, 0)
      else doFetch
    | none => doFetch

/-- Numeric JSON values and their rational value (the values on which
Python float() is the identity conversion). -/
def numVal : JValue → Option ℚ
  | .jint n => some (n : ℚ)
  | .jfloat q => some q
  | _ => none

/-- Numeric JSON values and their Python int() value. -/
def intVal : JValue → Option ℤ
  | .jint n => some n
  | .jfloat q => some (ratTrunc q)
  | _ => none

/-! # Theorems -/

/-- C10: decrypt_data is total at its boundary: for every input it
returns exactly the option collapse of the classified pipeline, so every
internal failure (transport decoding, too-short input, block
misalignment) becomes the None signal and nothing else escapes. -/
theorem C10_decrypt_data_total (blockDec : List Nat → List Nat) (s : List Char) :
    decrypt_data blockDec s = (decrypt_steps blockDec s).toOption := by
  unfold decrypt_data decrypt_steps
  cases hb : b64decode (preprocess s) with
  | error e => rfl
  | ok combined_data =>
    by_cases h1 : combined_data.length < 16
    · simp [h1, Except.toOption]
    · by_cases h2 : (combined_data.length - 16) % 16 = 0
      · cases hu : utf8DecodeStrict (removePadding
            (cbcDecrypt blockDec (combined_data.take 16) (combined_data.drop 16))) <;>
          simp [h1, h2, hu, Except.toOption]
      · simp [h1, h2, Except.toOption]

/-- C7: an input that decodes to fewer than 16 bytes after the URL and
base64 stage makes the pipeline fail with the too-short exit for every
block cipher (so no cipher operation can influence the outcome), and
decrypt_data answers None. -/
theorem C7_too_short (s : List Char) (b : List Nat)
    (hb : b64decode (preprocess s) = .ok b) (hlen : b.length < 16) :
    (∀ blockDec, decrypt_steps blockDec s = .error .tooShort) ∧
      ∀ blockDec, decrypt_data blockDec s = none := by
  constructor <;> intro blockDec <;> simp [decrypt_steps, decrypt_data, hb, hlen]

/-- Closed instance of C7 at the empty input, which decodes to zero
bytes. -/
theorem C7_too_short_witness :
    b64decode (preprocess []) = .ok [] ∧ ([] : List Nat).length < 16 ∧
      decrypt_steps (fun b => b) [] = .error .tooShort ∧
      decrypt_data (fun b => b) [] = none :=
  ⟨rfl, by decide, (C7_too_short [] [] rfl (by decide)).1 _,
    (C7_too_short [] [] rfl (by decide)).2 _⟩

/-- C8: when the decoded blob leaves a remainder after the 16-byte IV
whose length is not a multiple of 16, the pipeline fails with the
block-length exit for every block cipher, and decrypt_data answers
None. -/
theorem C8_block_misaligned (s : List Char) (b : List Nat)
    (hb : b64decode (preprocess s) = .ok b) (h16 : ¬ b.length < 16)
    (hmod : (b.drop 16).length % 16 ≠ 0) :
    (∀ blockDec, decrypt_steps blockDec s = .error .invalidBlockLength) ∧
      ∀ blockDec, decrypt_data blockDec s = none := by
  rw [List.length_drop] at hmod
  constructor <;> intro blockDec <;> simp [decrypt_steps, decrypt_data, hb, h16, hmod]

/-- Closed instance of C8 at a 17-byte blob: one byte remains after the
IV. -/
theorem C8_block_misaligned_witness :
    b64decode (preprocess (b64encode (List.replicate 17 0))) = .ok (List.replicate 17 0) ∧
      ¬ (List.replicate 17 (0 : Nat)).length < 16 ∧
      ((List.replicate 17 (0 : Nat)).drop 16).length % 16 ≠ 0 ∧
      decrypt_steps (fun b => b) (b64encode (List.replicate 17 0)) = .error .invalidBlockLength ∧
      decrypt_data (fun b => b) (b64encode (List.replicate 17 0)) = none :=
  ⟨rfl, by decide, by decide,
    (C8_block_misaligned (b64encode (List.replicate 17 0)) (List.replicate 17 0) rfl
      (by decide) (by decide)).1 _,
    (C8_block_misaligned (b64encode (List.replicate 17 0)) (List.replicate 17 0) rfl
      (by decide) (by decide)).2 _⟩

/-- C2: after CBC decryption (so on input of block-aligned length), the
padding removal of decrypt_data is exactly the two-step first-success
ladder the specification describes: standard PKCS-style removal when the
last byte is a pad length in (0,16] confirmed by the trailing bytes,
otherwise strip trailing nulls and strip again only if the new last byte
is a plausible pad length in (0,16]. -/
theorem C2_padding_ladder (bs : List Nat) (h : bs.length % 16 = 0) :
    removePadding bs = specPadRemoval bs := by
  rcases eq_or_ne bs [] with rfl | hne
  · rfl
  · have hpos : 0 < bs.length := List.length_pos.mpr hne
    have h16 : 16 ≤ bs.length := by omega
    by_cases hA : 0 < bs.getLastD 0 ∧ bs.getLastD 0 ≤ 16 ∧
        ∀ x ∈ bs.drop (bs.length - bs.getLastD 0), x = bs.getLastD 0
    · obtain ⟨hk1, hk16, hall⟩ := hA
      have hdrop : bs.drop (bs.length - bs.getLastD 0) =
          List.replicate (bs.getLastD 0) (bs.getLastD 0) := by
        rw [List.eq_replicate_iff]
        exact ⟨by rw [List.length_drop]; omega, hall⟩
      have hok : unpad bs BLOCK_SIZE = .ok (bs.take (bs.length - bs.getLastD 0)) := by
        simp only [unpad, BLOCK_SIZE]
        rw [if_neg (by omega), if_neg (fun hcon => hcon h), if_neg (by omega),
          if_neg (fun hcon => hcon hdrop)]
      simp only [removePadding, hok, specPadRemoval]
      rw [if_pos ⟨hne, hk1, hk16, hall⟩]
    · have herr : unpad bs BLOCK_SIZE = .error () := by
        simp only [unpad, BLOCK_SIZE]
        rw [if_neg (by omega), if_neg (fun hcon => hcon h)]
        by_cases hk : bs.getLastD 0 < 1 ∨ bs.getLastD 0 > min 16 bs.length
        · rw [if_pos hk]
        · rw [if_neg hk, if_pos]
          intro hrep
          apply hA
          refine ⟨by omega, by omega, ?_⟩
          intro x hx
          rw [hrep] at hx
          exact (List.mem_replicate.mp hx).2
      simp only [removePadding, herr, specPadRemoval]
      rw [if_neg (fun hc => hA ⟨hc.2.1, hc.2.2.1, hc.2.2.2⟩)]
      by_cases ht : rstrip0 bs = []
      · simp [manualUnpad, ht]
      · have htpos : 0 < (rstrip0 bs).length := List.length_pos.mpr ht
        by_cases hk2 : 0 < (rstrip0 bs).getLastD 0 ∧ (rstrip0 bs).getLastD 0 ≤ 16
        · simp only [manualUnpad]
          rw [if_pos htpos, if_pos ⟨hk2.2, hk2.1⟩, if_pos ⟨ht, hk2.1, hk2.2⟩]
        · simp only [manualUnpad]
          rw [if_pos htpos, if_neg (fun hc => hk2 ⟨hc.2, hc.1⟩),
            if_neg (fun hc => hk2 ⟨hc.2.1, hc.2.2⟩)]

/-- Closed instance of C2 on a full block of padding. -/
theorem C2_padding_ladder_witness :
    (List.replicate 16 (16 : Nat)).length % 16 = 0 ∧
      removePadding (List.replicate 16 16) = specPadRemoval (List.replicate 16 16) :=
  ⟨by decide, C2_padding_ladder (List.replicate 16 16) (by decide)⟩

/-- C4: a live cache entry (age strictly under the 600-second TTL) is
returned with no fetch invocation and no cache change; on a miss or a
stale entry the fetch runs exactly once, a success stores the pair of
value and current time and returns the value, and a failure caches
nothing and yields the explicit unavailable answer. -/
theorem C4_freshness_cache {α : Type} (fetch : Except Unit α) (now : ℚ)
    (cache : List (CKey × α × ℚ)) (lat lon : Option ℚ) (city : List Char) :
    (∀ v t, cacheLookup cache (weatherKey lat lon city) = some (v, t) →
      now - t < WEATHER_CACHE_DURATION →
      get_weather_data fetch now cache lat lon city = (some v, cache, 0)) ∧
    ((cacheLookup cache (weatherKey lat lon city) = none ∨
      ∃ v t, cacheLookup cache (weatherKey lat lon city) = some (v, t) ∧
        ¬ now - t < WEATHER_CACHE_DURATION) →
      (∀ w, fetch = .ok w → get_weather_data fetch now cache lat lon city =
        (some w, cacheInsert cache (weatherKey lat lon city) w now, 1)) ∧
      (∀ e, fetch = .error e →
        get_weather_data fetch now cache lat lon city = (none, cache, 1))) := by
  have hkey : ¬ WEATHER_API_KEY = [] := by decide
  constructor
  · intro v t hl hf
    simp [get_weather_data, hkey, hl, hf]
  · intro hmiss
    constructor
    · intro w hw
      subst hw
      rcases hmiss with hl | ⟨v, t, hl, hf⟩
      · simp [get_weather_data, hkey, hl]
      · simp [get_weather_data, hkey, hl, hf]
    · intro e he
      subst he
      rcases hmiss with hl | ⟨v, t, hl, hf⟩
      · simp [get_weather_data, hkey, hl]
      · simp [get_weather_data, hkey, hl, hf]

/-- Closed instance of C4: a cold lookup fetches once and stores the
value. -/
theorem C4_freshness_cache_witness :
    cacheLookup ([] : List (CKey × Nat × ℚ)) (weatherKey none none []) = none ∧
      get_weather_data (Except.ok 7) 0 ([] : List (CKey × Nat × ℚ)) none none [] =
        (some 7, cacheInsert [] (weatherKey none none []) 7 0, 1) :=
  ⟨rfl, ((C4_freshness_cache (Except.ok 7) 0 [] none none []).2 (Or.inl rfl)).1 7 rfl⟩

/-- C9: a produced record carries source decrypted exactly when the
encryption flag was set and a non-empty encoded string was present,
independently of decryption success. -/
theorem C9_source_flag (blockDec : List Nat → List Nat) (form : SensorForm)
    (row : StoredRow) (payload : SensorPayload) (rts : ℤ)
    (hresp : receive_sensor_data blockDec form = .success row payload rts) :
    (payload.source = Source.decrypted ↔
      form.is_encrypted = true ∧ form.encrypted_data ≠ []) := by
  have hsrc : payload.source =
      if form.is_encrypted = true ∧ form.encrypted_data ≠ [] then Source.decrypted
      else Source.plaintext := by
    simp only [receive_sensor_data] at hresp
    split at hresp
    · cases hresp
    · split at hresp
      · injection hresp with h1 h2 h3
        rw [← h2]
      · cases hresp
  rw [hsrc]
  by_cases hc : form.is_encrypted = true ∧ form.encrypted_data ≠ []
  · simp [hc]
  · simp [hc]

/-- Closed instance of C9 at a plaintext request. -/
theorem C9_source_flag_witness :
    (SensorPayload.source
        { team_number := .fromForm none, timestamp := 0, encrypted := false,
          source := .plaintext } = Source.decrypted ↔
      (false = true ∧ ([] : List Char) ≠ [])) :=
  C9_source_flag (fun b => b)
    { team_number := none, temperature := 0, humidity := 0, timestamp := 0,
      is_encrypted := false, encrypted_data := [] }
    { team_number := .fromForm none, temperature := 0, humidity := 0, timestamp := 0,
      encrypted_data := [] }
    { team_number := .fromForm none, timestamp := 0, encrypted := false,
      source := .plaintext }
    0 rfl

/-- Bounds of the humidity clamp. -/
theorem clampHum_bound (x : ℚ) : 0 ≤ clampHum x ∧ clampHum x ≤ 100 := by
  by_cases h1 : x < 0
  · simp only [clampHum, if_pos h1]
    norm_num
  · simp only [clampHum, if_neg h1]
    by_cases h2 : x > 100
    · simp only [if_pos h2]
      norm_num
    · simp only [if_neg h2]
      exact ⟨le_of_not_lt h1, le_of_not_lt h2⟩

/-- Every successful override result carries a clamped humidity. -/
theorem applyOverrides_humidity_shape (dd : List (List Char × JValue)) (t0 h0 : ℚ)
    (ts0 : ℤ) (team0 : TeamVal) (out : ℚ × ℚ × ℤ × TeamVal)
    (h : applyOverrides dd t0 h0 ts0 team0 = .ok out) : ∃ x, out.2.1 = clampHum x := by
  simp only [applyOverrides] at h
  repeat' split at h
  all_goals (cases h <;> exact ⟨_, rfl⟩)

/-- Every stored row's humidity is the clamp of some value. -/
theorem receive_humidity_shape (blockDec : List Nat → List Nat) (form : SensorForm)
    (row : StoredRow) (p : SensorPayload) (rts : ℤ)
    (h : receive_sensor_data blockDec form = .success row p rts) :
    ∃ x, row.humidity = clampHum x := by
  simp only [receive_sensor_data] at h
  split at h
  next e heq => cases h
  next t hv ts team heq =>
    split at h
    · injection h with h1 h2 h3
      subst h1
      repeat' split at heq
      all_goals first
        | (cases heq <;> exact ⟨_, rfl⟩)
        | exact ⟨_, rfl⟩
        | exact applyOverrides_humidity_shape _ _ _ _ _ _ heq
    · cases h

/-- C6: humidity is clamped into the interval from 0 to 100 both before
and after any override, so every stored record's humidity lies in the
interval; in particular raw humidity -5 is stored as 0 and raw humidity
150 as 100. -/
theorem C6_humidity_clamped :
    (∀ blockDec form q, humidityOf (receive_sensor_data blockDec form) = some q →
      0 ≤ q ∧ q ≤ 100) ∧
    humidityOf (receive_sensor_data (fun b => b)
      { team_number := none, temperature := 20, humidity := -5, timestamp := 0,
        is_encrypted := false, encrypted_data := [] }) = some 0 ∧
    humidityOf (receive_sensor_data (fun b => b)
      { team_number := none, temperature := 20, humidity := 150, timestamp := 0,
        is_encrypted := false, encrypted_data := [] }) = some 100 := by
  refine ⟨?_, rfl, rfl⟩
  intro bd form q hq
  unfold humidityOf at hq
  split at hq
  next row p t heq =>
    obtain ⟨x, hx⟩ := receive_humidity_shape bd form row p t heq
    injection hq with hq1
    rw [← hq1, hx]
    exact clampHum_bound x
  next heq => cases hq

/-- Closed instance of C6's bound at an in-range request. -/
theorem C6_humidity_clamped_witness : 0 ≤ (0 : ℚ) ∧ (0 : ℚ) ≤ 100 :=
  C6_humidity_clamped.1 (fun b => b)
    { team_number := none, temperature := 20, humidity := 0, timestamp := 0,
      is_encrypted := false, encrypted_data := [] } 0 rfl

/-- C3 as stated is false on the code: an encrypted payload that
decrypts successfully to valid JSON that is not an object (here the
array text of an opening bracket, 1, closing bracket) reaches dict.get
on a non-dict, and the resulting AttributeError is not caught by the
inner json-only handler, so the endpoint answers with the error
response, not success. -/
theorem C3_counterexample :
    decrypt_data (fun b => b)
        (esp32Encrypt (fun b => b) (List.replicate 16 0) ('[' :: '1' :: ']' :: [])) =
      some ('[' :: '1' :: ']' :: []) ∧
    json_loads ('[' :: '1' :: ']' :: []) = .ok (.jarr [.jint 1]) ∧
    receive_sensor_data (fun b => b)
      { team_number := none, temperature := 20, humidity := 50, timestamp := 0,
        is_encrypted := true,
        encrypted_data :=
          esp32Encrypt (fun b => b) (List.replicate 16 0) ('[' :: '1' :: ']' :: []) } =
      Response.error PyError.attributeError :=
  ⟨rfl, rfl, rfl⟩

/-- C3 amended: when the recovered text of a successfully decrypted
payload is malformed JSON (a syntax error, the only failure the inner
handler catches), ingestion still answers success for the request as a
whole, carrying only the raw/plaintext field values; recovered text that
parses to a non-object instead raises to the outer handler. -/
theorem C3_malformed_json_recovered (blockDec : List Nat → List Nat) (form : SensorForm)
    (dj : List Char) (henc : form.is_encrypted = true) (hne : form.encrypted_data ≠ [])
    (hdec : decrypt_data blockDec form.encrypted_data = some dj) (hdjne : dj ≠ [])
    (hbad : json_loads dj = .error ()) (hts : tsValid form.timestamp = true) :
    receive_sensor_data blockDec form = Response.success
      { team_number := .fromForm form.team_number, temperature := form.temperature,
        humidity := clampHum form.humidity, timestamp := form.timestamp,
        encrypted_data := form.encrypted_data }
      { team_number := .fromForm form.team_number, timestamp := form.timestamp,
        encrypted := form.is_encrypted, source := .decrypted }
      form.timestamp := by
  simp only [receive_sensor_data, henc, hne, hdec, hdjne, hbad, hts]
  simp [hne, hts]

/-- Closed instance of the amended C3: a payload decrypting to the
word hello, which is not JSON. -/
theorem C3_malformed_json_recovered_witness :
    receive_sensor_data (fun b => b)
      { team_number := none, temperature := 20, humidity := 50, timestamp := 0,
        is_encrypted := true,
        encrypted_data :=
          esp32Encrypt (fun b => b) (List.replicate 16 0) ("hello".toList) } =
      Response.success
        { team_number := .fromForm none, temperature := 20, humidity := 50, timestamp := 0,
          encrypted_data :=
            esp32Encrypt (fun b => b) (List.replicate 16 0) ("hello".toList) }
        { team_number := .fromForm none, timestamp := 0, encrypted := true,
          source := .decrypted } 0 :=
  C3_malformed_json_recovered (fun b => b)
    { team_number := none, temperature := 20, humidity := 50, timestamp := 0,
      is_encrypted := true,
      encrypted_data := esp32Encrypt (fun b => b) (List.replicate 16 0) ("hello".toList) }
    ("hello".toList) rfl (by decide) rfl (by decide) rfl rfl

/-- The json module's non-standard constants are parse successes, not
syntax errors: a payload decrypting to the text NaN parses, reaches
dict.get on a non-dict and is answered by the error response, exactly
as the non-object case. -/
theorem nonfinite_constants_parse :
    json_loads ("NaN".toList) = .ok .jnan ∧
    json_loads ("Infinity".toList) = .ok (.jinf false) ∧
    json_loads ("-Infinity".toList) = .ok (.jinf true) ∧
    receive_sensor_data (fun b => b)
      { team_number := none, temperature := 20, humidity := 50, timestamp := 0,
        is_encrypted := true,
        encrypted_data := esp32Encrypt (fun b => b) (List.replicate 16 0) ("NaN".toList) } =
      Response.error PyError.attributeError :=
  ⟨rfl, rfl, rfl, rfl⟩

/-- A lone-surrogate escape is a parse success, as in Python, which
keeps the lone surrogate (modelled by the replacement character). -/
theorem lone_surrogate_escape_parses :
    json_loads ('"' :: '\\' :: 'u' :: 'd' :: '8' :: '0' :: '0' :: '"' :: []) =
      .ok (.jstr [replChar]) := rfl

/-- A numeric JSON value converts under Python float() to its rational
value. -/
theorem numVal_pyFloat (v : JValue) (q : ℚ) (h : numVal v = some q) : pyFloat v = .ok q := by
  cases v <;> simp [numVal] at h <;> simp [pyFloat, h]

/-- A numeric JSON value converts under Python int() to its truncated
value. -/
theorem intVal_pyInt (v : JValue) (n : ℤ) (h : intVal v = some n) : pyInt v = .ok n := by
  cases v <;> simp [intVal] at h <;> simp [pyInt, h]

/-- C5: with the encryption flag set and a payload that decrypts and
parses as a structured record with numeric fields, the endpoint
overrides temperature, humidity, timestamp and team number individually
with the values present in the record, while each absent field retains
its raw value (the raw humidity entering clamped, the final humidity
clamped again). -/
theorem C5_per_field_override (blockDec : List Nat → List Nat) (form : SensorForm)
    (dj : List Char) (dd : List (List Char × JValue)) (tv hv : ℚ) (tsv : ℤ)
    (henc : form.is_encrypted = true) (hne : form.encrypted_data ≠ [])
    (hdec : decrypt_data blockDec form.encrypted_data = some dj) (hdjne : dj ≠ [])
    (hjson : json_loads dj = .ok (.jobj dd))
    (ht : (match jGet dd tempKey with
      | none => some form.temperature | some v => numVal v) = some tv)
    (hh : (match jGet dd humKey with
      | none => some (clampHum form.humidity) | some v => numVal v) = some hv)
    (hts : (match jGet dd tsKey with
      | none => some form.timestamp | some v => intVal v) = some tsv)
    (htsv : tsValid tsv = true) :
    receive_sensor_data blockDec form = Response.success
      { team_number := (match jGet dd teamKey with
          | none => TeamVal.fromForm form.team_number | some v => TeamVal.fromJson v),
        temperature := tv, humidity := clampHum hv, timestamp := tsv,
        encrypted_data := form.encrypted_data }
      { team_number := (match jGet dd teamKey with
          | none => TeamVal.fromForm form.team_number | some v => TeamVal.fromJson v),
        timestamp := tsv, encrypted := form.is_encrypted, source := .decrypted }
      tsv := by
  have h1 : (match jGet dd tempKey with
      | none => Except.ok form.temperature | some v => pyFloat v) = Except.ok tv := by
    cases hj : jGet dd tempKey with
    | none =>
      rw [hj] at ht
      injection ht with h2
      rw [h2]
    | some v =>
      rw [hj] at ht
      exact numVal_pyFloat v tv ht
  have h2 : (match jGet dd humKey with
      | none => Except.ok (clampHum form.humidity) | some v => pyFloat v) = Except.ok hv := by
    cases hj : jGet dd humKey with
    | none =>
      rw [hj] at hh
      injection hh with h3
      rw [h3]
    | some v =>
      rw [hj] at hh
      exact numVal_pyFloat v hv hh
  have h3 : (match jGet dd tsKey with
      | none => Except.ok form.timestamp | some v => pyInt v) = Except.ok tsv := by
    cases hj : jGet dd tsKey with
    | none =>
      rw [hj] at hts
      injection hts with h4
      rw [h4]
    | some v =>
      rw [hj] at hts
      exact intVal_pyInt v tsv hts
  have hov : applyOverrides dd form.temperature (clampHum form.humidity) form.timestamp
      (.fromForm form.team_number) =
      .ok (tv, clampHum hv, tsv, (match jGet dd teamKey with
        | none => TeamVal.fromForm form.team_number | some v => TeamVal.fromJson v)) := by
    simp only [applyOverrides, h1, h2, h3]
  simp only [receive_sensor_data, henc, hne, hdec, hdjne, hjson, hov, htsv]
  simp [hne, htsv]

/-- Closed instance of C5: a record containing only a humidity of 5
overrides humidity and leaves the other raw fields in place. -/
theorem C5_per_field_override_witness :
    receive_sensor_data (fun b => b)
      { team_number := none, temperature := 1, humidity := 2, timestamp := 0,
        is_encrypted := true,
        encrypted_data := esp32Encrypt (fun b => b) (List.replicate 16 0)
          ("\x7b\"humidity\":5\x7d".toList) } =
      Response.success
        { team_number := TeamVal.fromForm none, temperature := 1,
          humidity := clampHum ((5 : ℤ) : ℚ), timestamp := 0,
          encrypted_data := esp32Encrypt (fun b => b) (List.replicate 16 0)
            ("\x7b\"humidity\":5\x7d".toList) }
        { team_number := TeamVal.fromForm none, timestamp := 0, encrypted := true,
          source := Source.decrypted } 0 :=
  C5_per_field_override (fun b => b)
    { team_number := none, temperature := 1, humidity := 2, timestamp := 0,
      is_encrypted := true,
      encrypted_data := esp32Encrypt (fun b => b) (List.replicate 16 0)
        ("\x7b\"humidity\":5\x7d".toList) }
    ("\x7b\"humidity\":5\x7d".toList) [("humidity".toList, .jint 5)]
    1 ((5 : ℤ) : ℚ) 0 rfl (by decide) rfl (by decide) rfl rfl rfl rfl rfl

/-- The alphabet index inverts the alphabet character map. -/
theorem b64idx_chr : ∀ n, n < 64 → b64idx (b64chr n) = some n := by decide

/-- The default-0 index inverts the alphabet character map. -/
theorem b64val_chr : ∀ n, n < 64 → b64val (b64chr n) = n := by decide

/-- Alphabet characters are ASCII. -/
theorem b64chr_ascii : ∀ n, n < 64 → (b64chr n).toNat < 128 := by decide

/-- Alphabet characters are not padding, percent, whitespace or space. -/
theorem b64chr_ne : ∀ n, n < 64 → b64chr n ≠ '=' ∧ b64chr n ≠ '%' ∧
    isStripWs (b64chr n) = false ∧ b64chr n ≠ ' ' := by decide

/-- Every character of an encoded byte string (bytes below 256) is an
alphabet character or padding. -/
theorem b64encode_chars : ∀ (l : List Nat), (∀ a ∈ l, a < 256) →
    ∀ c ∈ b64encode l, (∃ n, n < 64 ∧ c = b64chr n) ∨ c = '='
  | [], _, c, hc => by simp [b64encode] at hc
  | [a], h, c, hc => by
    have ha : a < 256 := h a (by simp)
    simp only [b64encode, List.mem_cons, List.not_mem_nil, or_false] at hc
    rcases hc with rfl | rfl | rfl | rfl
    · exact Or.inl ⟨a / 4, by omega, rfl⟩
    · exact Or.inl ⟨a % 4 * 16, by omega, rfl⟩
    · exact Or.inr rfl
    · exact Or.inr rfl
  | [a, b], h, c, hc => by
    have ha : a < 256 := h a (by simp)
    have hb : b < 256 := h b (by simp)
    simp only [b64encode, List.mem_cons, List.not_mem_nil, or_false] at hc
    rcases hc with rfl | rfl | rfl | rfl
    · exact Or.inl ⟨a / 4, by omega, rfl⟩
    · exact Or.inl ⟨a % 4 * 16 + b / 16, by omega, rfl⟩
    · exact Or.inl ⟨b % 16 * 4, by omega, rfl⟩
    · exact Or.inr rfl
  | a :: b :: d :: rest, h, c, hc => by
    have ha : a < 256 := h a (by simp)
    have hb : b < 256 := h b (by simp)
    have hd : d < 256 := h d (by simp)
    simp only [b64encode, List.mem_cons] at hc
    rcases hc with rfl | rfl | rfl | rfl | hmem
    · exact Or.inl ⟨a / 4, by omega, rfl⟩
    · exact Or.inl ⟨a % 4 * 16 + b / 16, by omega, rfl⟩
    · exact Or.inl ⟨b % 16 * 4 + d / 64, by omega, rfl⟩
    · exact Or.inl ⟨d % 64, by omega, rfl⟩
    · exact b64encode_chars rest (fun x hx => h x (by simp [hx])) c hmem

/-- Encoded length is always a multiple of four. -/
theorem b64encode_length4 : ∀ (l : List Nat), (b64encode l).length % 4 = 0
  | [] => rfl
  | [_] => by simp [b64encode]
  | [_, _] => by simp [b64encode]
  | _ :: _ :: _ :: rest => by
    simp only [b64encode, List.length_cons]
    have := b64encode_length4 rest
    omega

/-- The data characters of an encoded byte string decode back to the
bytes, and their count is never one more than a multiple of four. -/
theorem b64_data_spec : ∀ (l : List Nat), (∀ a ∈ l, a < 256) →
    b64decodeQuads ((b64encode l).takeWhile (fun c => c ≠ '=')) = l ∧
    ((b64encode l).takeWhile (fun c => c ≠ '=')).length % 4 ≠ 1
  | [], _ => by simp [b64encode, b64decodeQuads]
  | [a], h => by
    have ha : a < 256 := h a (by simp)
    have h1 := (b64chr_ne (a / 4) (by omega)).1
    have h2 := (b64chr_ne (a % 4 * 16) (by omega)).1
    have htw : (b64encode [a]).takeWhile (fun c => c ≠ '=') =
        [b64chr (a / 4), b64chr (a % 4 * 16)] := by
      simp only [b64encode]
      rw [List.takeWhile_cons, if_pos (by simp [h1]), List.takeWhile_cons,
        if_pos (by simp [h2]), List.takeWhile_cons, if_neg (by simp)]
    rw [htw]
    refine ⟨?_, by simp⟩
    simp only [b64decodeQuads]
    rw [b64val_chr _ (by omega), b64val_chr _ (by omega)]
    simp only [List.cons.injEq, and_true]
    omega
  | [a, b], h => by
    have ha : a < 256 := h a (by simp)
    have hb : b < 256 := h b (by simp)
    have h1 := (b64chr_ne (a / 4) (by omega)).1
    have h2 := (b64chr_ne (a % 4 * 16 + b / 16) (by omega)).1
    have h3 := (b64chr_ne (b % 16 * 4) (by omega)).1
    have htw : (b64encode [a, b]).takeWhile (fun c => c ≠ '=') =
        [b64chr (a / 4), b64chr (a % 4 * 16 + b / 16), b64chr (b % 16 * 4)] := by
      simp only [b64encode]
      rw [List.takeWhile_cons, if_pos (by simp [h1]), List.takeWhile_cons,
        if_pos (by simp [h2]), List.takeWhile_cons, if_pos (by simp [h3]),
        List.takeWhile_cons, if_neg (by simp)]
    rw [htw]
    refine ⟨?_, by simp⟩
    simp only [b64decodeQuads]
    rw [b64val_chr _ (by omega), b64val_chr _ (by omega), b64val_chr _ (by omega)]
    simp only [List.cons.injEq, and_true]
    omega
  | a :: b :: d :: rest, h => by
    have ha : a < 256 := h a (by simp)
    have hb : b < 256 := h b (by simp)
    have hd : d < 256 := h d (by simp)
    have h1 := (b64chr_ne (a / 4) (by omega)).1
    have h2 := (b64chr_ne (a % 4 * 16 + b / 16) (by omega)).1
    have h3 := (b64chr_ne (b % 16 * 4 + d / 64) (by omega)).1
    have h4 := (b64chr_ne (d % 64) (by omega)).1
    have ih := b64_data_spec rest (fun x hx => h x (by simp [hx]))
    have htw : (b64encode (a :: b :: d :: rest)).takeWhile (fun c => c ≠ '=') =
        b64chr (a / 4) :: b64chr (a % 4 * 16 + b / 16) :: b64chr (b % 16 * 4 + d / 64) ::
          b64chr (d % 64) :: (b64encode rest).takeWhile (fun c => c ≠ '=') := by
      simp only [b64encode]
      rw [List.takeWhile_cons, if_pos (by simp [h1]), List.takeWhile_cons,
        if_pos (by simp [h2]), List.takeWhile_cons, if_pos (by simp [h3]),
        List.takeWhile_cons, if_pos (by simp [h4])]
    rw [htw]
    constructor
    · simp only [b64decodeQuads]
      rw [b64val_chr _ (by omega), b64val_chr _ (by omega), b64val_chr _ (by omega),
        b64val_chr _ (by omega), ih.1]
      simp only [List.cons.injEq, and_true]
      omega
    · simp only [List.length_cons]
      have := ih.2
      omega

/-- Decoding inverts encoding on byte strings. -/
theorem b64decode_encode (l : List Nat) (hl : ∀ a ∈ l, a < 256) :
    b64decode (b64encode l) = .ok l := by
  have hchars := b64encode_chars l hl
  have hascii : (b64encode l).all (fun c => c.toNat < 128) = true := by
    rw [List.all_eq_true]
    intro c hc
    rcases hchars c hc with ⟨n, hn, rfl⟩ | rfl
    · simpa using b64chr_ascii n hn
    · decide
  have hfilter : (b64encode l).filter (fun c => (b64idx c).isSome ∨ c = '=') = b64encode l := by
    rw [List.filter_eq_self]
    intro c hc
    rcases hchars c hc with ⟨n, hn, rfl⟩ | rfl
    · simp [b64idx_chr n hn]
    · simp
  have hspec := b64_data_spec l hl
  simp only [b64decode]
  rw [if_neg (by simp [hascii]), hfilter, if_neg (fun hcon => hcon (b64encode_length4 l)),
    if_neg hspec.2, hspec.1]

/-- Percent decoding with sufficient fuel leaves a percent-free string
unchanged. -/
theorem unquoteFuel_id : ∀ (f : Nat) (l : List Char), l.length ≤ f → '%' ∉ l →
    unquoteFuel f l = l
  | f, [], _, _ => by cases f <;> rfl
  | 0, c :: rest, hf, _ => by simp at hf
  | f + 1, c :: rest, hf, hp => by
    have hc : ¬ c = '%' := fun h => hp (h ▸ List.mem_cons_self c rest)
    have hrest : '%' ∉ rest := fun h => hp (List.mem_cons_of_mem c h)
    have hfr : rest.length ≤ f := by
      simp only [List.length_cons] at hf
      omega
    simp only [unquoteFuel, if_neg hc]
    rw [unquoteFuel_id f rest hfr hrest]

/-- Percent decoding leaves a percent-free string unchanged. -/
theorem unquote_id (l : List Char) (hp : '%' ∉ l) : unquote l = l :=
  unquoteFuel_id l.length l le_rfl hp

/-- Dropping leading whitespace does nothing when no character is
whitespace. -/
theorem dropWhile_stripWs_id : ∀ (l : List Char), (∀ c ∈ l, isStripWs c = false) →
    l.dropWhile isStripWs = l
  | [], _ => rfl
  | c :: rest, h => by
    rw [List.dropWhile_cons, if_neg (by simp [h c (by simp)])]

/-- Stripping does nothing when no character is whitespace. -/
theorem pyStrip_id (l : List Char) (h : ∀ c ∈ l, isStripWs c = false) : pyStrip l = l := by
  unfold pyStrip
  rw [dropWhile_stripWs_id l h,
    dropWhile_stripWs_id l.reverse (fun c hc => h c (List.mem_reverse.mp hc)),
    List.reverse_reverse]

/-- The base64 cleaning is the identity on text with no whitespace,
newlines, carriage returns or spaces. -/
theorem cleanB64_id (l : List Char)
    (h : ∀ c ∈ l, isStripWs c = false ∧ c ≠ '\n' ∧ c ≠ '\r' ∧ c ≠ ' ') : cleanB64 l = l := by
  unfold cleanB64
  rw [pyStrip_id l (fun c hc => (h c hc).1)]
  rw [List.filter_eq_self.mpr
    (fun c hc => by simp [(h c (List.mem_of_mem_filter hc)).2.2.1])]
  rw [List.filter_eq_self.mpr (fun c hc => by simp [(h c hc).2.1])]
  rw [List.map_congr_left (fun c hc => if_neg (h c hc).2.2.2), List.map_id' l]

/-- The whole preprocessing stage is the identity on encoded byte
strings: they contain no percent signs, no whitespace, and their length
is already a multiple of four. -/
theorem preprocess_encode (l : List Nat) (hl : ∀ a ∈ l, a < 256) :
    preprocess (b64encode l) = b64encode l := by
  have hchars := b64encode_chars l hl
  have hid : cleanB64 (unquote (b64encode l)) = b64encode l := by
    rw [unquote_id (b64encode l) ?hpct]
    case hpct =>
      intro hmem
      rcases hchars '%' hmem with ⟨n, hn, heq⟩ | heq
      · exact (b64chr_ne n hn).2.1 heq.symm
      · exact absurd heq (by decide)
    apply cleanB64_id
    intro c hc
    rcases hchars c hc with ⟨n, hn, rfl⟩ | rfl
    · have h2 := b64chr_ne n hn
      exact ⟨h2.2.2.1, fun he => absurd (he ▸ h2.2.2.1) (by decide),
        fun he => absurd (he ▸ h2.2.2.1) (by decide), h2.2.2.2⟩
    · refine ⟨by decide, by decide, by decide, by decide⟩
  unfold preprocess
  rw [hid, if_neg (fun hcon => hcon (b64encode_length4 l))]

/-- Flattening the chunks restores the byte string. -/
theorem chunkFuel_flatten : ∀ (f : Nat) (l : List Nat), l.length ≤ f →
    (chunkFuel f l).flatten = l
  | f, [], _ => by cases f <;> rfl
  | 0, x :: xs, h => by simp at h
  | f + 1, x :: xs, h => by
    have hfr : ((x :: xs).drop 16).length ≤ f := by
      simp only [List.length_drop, List.length_cons] at h ⊢
      omega
    simp only [chunkFuel, List.flatten_cons]
    rw [chunkFuel_flatten f ((x :: xs).drop 16) hfr]
    exact List.take_append_drop 16 (x :: xs)

/-- Flattening the chunks restores the byte string. -/
theorem chunk16_flatten (l : List Nat) : (chunk16 l).flatten = l :=
  chunkFuel_flatten l.length l le_rfl

/-- Chunking a flattened list of 16-byte blocks restores the blocks. -/
theorem chunkFuel_of_flatten : ∀ (bs : List (List Nat)) (f : Nat),
    (∀ b ∈ bs, b.length = 16) → bs.flatten.length ≤ f → chunkFuel f bs.flatten = bs
  | [], f, _, _ => by cases f <;> rfl
  | b :: rest, f, hall, hf => by
    have hb : b.length = 16 := hall b (by simp)
    obtain ⟨x, xs, rfl⟩ : ∃ x xs, b = x :: xs := by
      cases b with
      | nil => simp at hb
      | cons x xs => exact ⟨x, xs, rfl⟩
    match f with
    | 0 =>
      exfalso
      simp only [List.flatten_cons, List.length_append, List.length_cons] at hf
      omega
    | f + 1 =>
      have hrest : rest.flatten.length ≤ f := by
        simp only [List.flatten_cons, List.length_append, List.length_cons] at hf
        omega
      show chunkFuel (f + 1) ((x :: xs) ++ rest.flatten) = (x :: xs) :: rest
      have h1 : List.take 16 (x :: (xs ++ rest.flatten)) = x :: xs := by
        rw [← List.cons_append, show (16 : Nat) = (x :: xs).length from hb.symm]
        exact List.take_left (x :: xs) rest.flatten
      have h2 : List.drop 16 (x :: (xs ++ rest.flatten)) = rest.flatten := by
        rw [← List.cons_append, show (16 : Nat) = (x :: xs).length from hb.symm]
        exact List.drop_left (x :: xs) rest.flatten
      rw [List.cons_append]
      simp only [chunkFuel]
      rw [h1, h2,
        chunkFuel_of_flatten rest f (fun y hy => hall y (by simp [hy])) hrest]

/-- Chunking a flattened list of 16-byte blocks restores the blocks. -/
theorem chunk16_of_flatten (bs : List (List Nat)) (hall : ∀ b ∈ bs, b.length = 16) :
    chunk16 bs.flatten = bs :=
  chunkFuel_of_flatten bs bs.flatten.length hall le_rfl

/-- Chunks of a block-aligned byte string have length 16. -/
theorem chunkFuel_len : ∀ (f : Nat) (l : List Nat), l.length ≤ f → l.length % 16 = 0 →
    ∀ b ∈ chunkFuel f l, b.length = 16
  | f, [], _, _, b, hb => by cases f <;> simp [chunkFuel] at hb
  | 0, x :: xs, h, _, b, hb => by simp at h
  | f + 1, x :: xs, h, hmod, b, hb => by
    have hlen : 16 ≤ (x :: xs).length := by
      have : 0 < (x :: xs).length := by simp
      omega
    simp only [chunkFuel, List.mem_cons] at hb
    rcases hb with rfl | hb
    · simp only [List.length_take]
      omega
    · refine chunkFuel_len f ((x :: xs).drop 16) ?_ ?_ b hb
      · simp only [List.length_drop, List.length_cons] at h ⊢
        omega
      · simp only [List.length_drop]
        omega

/-- Chunks of a block-aligned byte string have length 16. -/
theorem chunk16_len (l : List Nat) (hmod : l.length % 16 = 0) :
    ∀ b ∈ chunk16 l, b.length = 16 :=
  chunkFuel_len l.length l le_rfl hmod

/-- XOR of two bytes is a byte. -/
theorem xor_lt_256 (a b : Nat) (ha : a < 256) (hb : b < 256) : a ^^^ b < 256 := by
  have h28 : (2 : ℕ) ^ 8 = 256 := by norm_num
  have h := Nat.xor_lt_two_pow (show a < 2 ^ 8 by rw [h28]; exact ha)
    (show b < 2 ^ 8 by rw [h28]; exact hb)
  rwa [h28] at h

/-- XOR of byte strings yields bytes. -/
theorem xorBytes_lt : ∀ (xs ys : List Nat), (∀ x ∈ xs, x < 256) → (∀ y ∈ ys, y < 256) →
    ∀ z ∈ xorBytes xs ys, z < 256
  | [], _, _, _, z, hz => by simp [xorBytes] at hz
  | _ :: _, [], _, _, z, hz => by simp [xorBytes] at hz
  | x :: xs, y :: ys, hx, hy, z, hz => by
    simp only [xorBytes, List.zipWith_cons_cons, List.mem_cons] at hz
    rcases hz with rfl | hz
    · exact xor_lt_256 x y (hx x (by simp)) (hy y (by simp))
    · exact xorBytes_lt xs ys (fun a ha => hx a (by simp [ha]))
        (fun a ha => hy a (by simp [ha])) z hz

/-- XORing with the same string twice is the identity. -/
theorem xorBytes_cancel : ∀ (xs ys : List Nat), xs.length = ys.length →
    xorBytes (xorBytes xs ys) ys = xs
  | [], [], _ => rfl
  | [], _ :: _, h => by simp at h
  | _ :: _, [], h => by simp at h
  | x :: xs, y :: ys, h => by
    have ih := xorBytes_cancel xs ys (by simpa using h)
    simp only [xorBytes, List.zipWith_cons_cons] at ih ⊢
    rw [ih]
    exact congrArg (fun z => z :: xs) (Nat.xor_cancel_right y x)

/-- Ciphertext blocks of the CBC chain are full bytes of length 16,
given that the block primitive preserves both. -/
theorem cbcEncryptAux_spec (blockEnc : List Nat → List Nat)
    (hlen : ∀ xs : List Nat, xs.length = 16 → (blockEnc xs).length = 16)
    (hbyte : ∀ xs : List Nat, xs.length = 16 → (∀ y ∈ xs, y < 256) →
      ∀ y ∈ blockEnc xs, y < 256) :
    ∀ (blocks : List (List Nat)) (prev : List Nat), prev.length = 16 →
      (∀ y ∈ prev, y < 256) → (∀ b ∈ blocks, b.length = 16 ∧ ∀ y ∈ b, y < 256) →
      ∀ c ∈ cbcEncryptAux blockEnc prev blocks, c.length = 16 ∧ ∀ y ∈ c, y < 256
  | [], _, _, _, _, c, hc => by simp [cbcEncryptAux] at hc
  | b :: rest, prev, hp, hpb, hblocks, c, hc => by
    obtain ⟨hb16, hbb⟩ := hblocks b (by simp)
    have hxl : (xorBytes b prev).length = 16 := by
      simp [xorBytes, List.length_zipWith, hb16, hp]
    have hxb : ∀ y ∈ xorBytes b prev, y < 256 := xorBytes_lt b prev hbb hpb
    have hcl : (blockEnc (xorBytes b prev)).length = 16 := hlen _ hxl
    have hcb : ∀ y ∈ blockEnc (xorBytes b prev), y < 256 := hbyte _ hxl hxb
    simp only [cbcEncryptAux, List.mem_cons] at hc
    rcases hc with rfl | hc
    · exact ⟨hcl, hcb⟩
    · exact cbcEncryptAux_spec blockEnc hlen hbyte rest (blockEnc (xorBytes b prev))
        hcl hcb (fun x hx => hblocks x (by simp [hx])) c hc

/-- CBC decryption chaining inverts CBC encryption chaining when the
block primitive pair is inverse on 16-byte blocks. -/
theorem cbcDecryptAux_encryptAux (blockEnc blockDec : List Nat → List Nat)
    (hlen : ∀ xs : List Nat, xs.length = 16 → (blockEnc xs).length = 16)
    (hbyte : ∀ xs : List Nat, xs.length = 16 → (∀ y ∈ xs, y < 256) →
      ∀ y ∈ blockEnc xs, y < 256)
    (hinv : ∀ xs : List Nat, xs.length = 16 → blockDec (blockEnc xs) = xs) :
    ∀ (blocks : List (List Nat)) (prev : List Nat), prev.length = 16 →
      (∀ y ∈ prev, y < 256) → (∀ b ∈ blocks, b.length = 16 ∧ ∀ y ∈ b, y < 256) →
      cbcDecryptAux blockDec prev (cbcEncryptAux blockEnc prev blocks) = blocks
  | [], _, _, _, _ => rfl
  | b :: rest, prev, hp, hpb, hblocks => by
    obtain ⟨hb16, hbb⟩ := hblocks b (by simp)
    have hxl : (xorBytes b prev).length = 16 := by
      simp [xorBytes, List.length_zipWith, hb16, hp]
    have hxb : ∀ y ∈ xorBytes b prev, y < 256 := xorBytes_lt b prev hbb hpb
    have hcl : (blockEnc (xorBytes b prev)).length = 16 := hlen _ hxl
    have hcb : ∀ y ∈ blockEnc (xorBytes b prev), y < 256 := hbyte _ hxl hxb
    simp only [cbcEncryptAux, cbcDecryptAux]
    rw [hinv _ hxl, xorBytes_cancel b prev (by omega),
      cbcDecryptAux_encryptAux blockEnc blockDec hlen hbyte hinv rest
        (blockEnc (xorBytes b prev)) hcl hcb (fun x hx => hblocks x (by simp [hx]))]

/-- The flattening of 16-byte blocks is block-aligned. -/
theorem flatten16_mod : ∀ (bs : List (List Nat)), (∀ b ∈ bs, b.length = 16) →
    bs.flatten.length % 16 = 0
  | [], _ => rfl
  | b :: rest, h => by
    simp only [List.flatten_cons, List.length_append]
    rw [h b (by simp)]
    have := flatten16_mod rest (fun x hx => h x (by simp [hx]))
    omega

/-- Unpadding inverts pkcs7 padding. -/
theorem unpad_pad (bs : List Nat) : unpad (pad bs BLOCK_SIZE) BLOCK_SIZE = .ok bs := by
  show unpad (pad bs 16) 16 = .ok bs
  have hlen : (pad bs 16).length = bs.length + (16 - bs.length % 16) := by
    simp [pad]
  have hlast : (pad bs 16).getLastD 0 = 16 - bs.length % 16 := by
    simp only [pad]
    rw [List.getLastD_eq_getLast?, List.getLast?_append, List.getLast?_replicate]
    simp [show ¬(16 - bs.length % 16 = 0) from by omega]
  have hdrop : (pad bs 16).drop ((pad bs 16).length - (16 - bs.length % 16)) =
      List.replicate (16 - bs.length % 16) (16 - bs.length % 16) := by
    rw [hlen, show bs.length + (16 - bs.length % 16) - (16 - bs.length % 16) = bs.length from
      by omega]
    simp only [pad]
    exact List.drop_left bs _
  have htake : (pad bs 16).take ((pad bs 16).length - (16 - bs.length % 16)) = bs := by
    rw [hlen, show bs.length + (16 - bs.length % 16) - (16 - bs.length % 16) = bs.length from
      by omega]
    simp only [pad]
    exact List.take_left bs _
  simp only [unpad, hlast]
  rw [if_neg (by rw [hlen]; omega), if_neg (by rw [hlen]; intro hcon; omega),
    if_neg (by rw [hlen]; omega), if_neg (fun hcon => hcon hdrop), htake]

/-- The padding-removal ladder inverts pkcs7 padding through its strict
first step. -/
theorem removePadding_pad (bs : List Nat) : removePadding (pad bs BLOCK_SIZE) = bs := by
  simp only [removePadding]
  rw [unpad_pad bs]

/-- Padded data is block-aligned. -/
theorem pad_mod (bs : List Nat) : (pad bs BLOCK_SIZE).length % 16 = 0 := by
  show (pad bs 16).length % 16 = 0
  simp only [pad, List.length_append, List.length_replicate]
  omega

/-- Padding bytes stay below 256. -/
theorem pad_lt (bs : List Nat) (h : ∀ a ∈ bs, a < 256) : ∀ a ∈ pad bs BLOCK_SIZE, a < 256 := by
  intro a ha
  have ha' : a ∈ pad bs 16 := ha
  simp only [pad, List.mem_append] at ha'
  rcases ha' with ha' | ha'
  · exact h a ha'
  · have := List.mem_replicate.mp ha'
    omega

/-- Scalar-value bound and surrogate exclusion of a character. -/
theorem char_valid_nat (c : Char) :
    c.toNat < 55296 ∨ (57343 < c.toNat ∧ c.toNat < 1114112) := c.valid

/-- UTF-8 encodes into bytes. -/
theorem utf8EncodeChar_lt (c : Char) : ∀ b ∈ utf8EncodeChar c, b < 256 := by
  have hv := char_valid_nat c
  intro b hb
  simp only [utf8EncodeChar] at hb
  repeat' split at hb
  all_goals simp at hb
  all_goals omega

/-- UTF-8 encodes strings into bytes. -/
theorem utf8Encode_lt (cs : List Char) : ∀ b ∈ utf8Encode cs, b < 256 := by
  intro b hb
  simp only [utf8Encode] at hb
  rw [List.mem_flatten] at hb
  obtain ⟨l, hl, hbl⟩ := hb
  rw [List.mem_map] at hl
  obtain ⟨c, _, rfl⟩ := hl
  exact utf8EncodeChar_lt c b hbl


/-- A character encodes to at least one byte. -/
theorem utf8EncodeChar_ne_nil (c : Char) : utf8EncodeChar c ≠ [] := by
  simp only [utf8EncodeChar]
  repeat' split
  all_goals simp

/-- Decoding one scalar inverts encoding one character, whatever bytes
follow. -/
theorem utf8DecodeOne_encodeChar (c : Char) (bs : List Nat) :
    ∃ b0 t, utf8EncodeChar c ++ bs = b0 :: t ∧ utf8DecodeOne b0 t = some (c, bs) := by
  have hv := char_valid_nat c
  have hofn : Char.ofNat c.toNat = c := Char.ofNat_toNat c
  by_cases h1 : c.toNat < 0x80
  · refine ⟨c.toNat, bs, by simp [utf8EncodeChar, h1], ?_⟩
    simp only [utf8DecodeOne]
    rw [if_pos h1, hofn]
  · by_cases h2 : c.toNat < 0x800
    · refine ⟨0xC0 + c.toNat / 64, (0x80 + c.toNat % 64) :: bs,
        by simp [utf8EncodeChar, h1, h2], ?_⟩
      simp only [utf8DecodeOne]
      rw [if_neg (by omega), if_neg (by omega), if_pos (by omega)]
      rw [if_pos (by omega)]
      rw [show (0xC0 + c.toNat / 64 - 0xC0) * 64 + (0x80 + c.toNat % 64 - 0x80) = c.toNat from
        by omega, hofn]
    · by_cases h3 : c.toNat < 0x10000
      · have hcont : utf8Cont2Ok (0xE0 + c.toNat / 4096) (0x80 + c.toNat / 64 % 64) = true := by
          simp only [utf8Cont2Ok]
          by_cases hq0 : 0xE0 + c.toNat / 4096 = 0xE0
          · rw [if_pos hq0, decide_eq_true_eq]
            omega
          · by_cases hqd : 0xE0 + c.toNat / 4096 = 0xED
            · rw [if_neg hq0, if_pos hqd, decide_eq_true_eq]
              omega
            · rw [if_neg hq0, if_neg hqd, decide_eq_true_eq]
              omega
        refine ⟨0xE0 + c.toNat / 4096,
          (0x80 + c.toNat / 64 % 64) :: (0x80 + c.toNat % 64) :: bs,
          by simp [utf8EncodeChar, h1, h2, h3], ?_⟩
        simp only [utf8DecodeOne]
        rw [if_neg (by omega), if_neg (by omega), if_neg (by omega), if_pos (by omega)]
        rw [if_pos ⟨hcont, by omega⟩]
        rw [show (0xE0 + c.toNat / 4096 - 0xE0) * 4096 + (0x80 + c.toNat / 64 % 64 - 0x80) * 64 +
            (0x80 + c.toNat % 64 - 0x80) = c.toNat from by omega, hofn]
      · have h4 : c.toNat < 1114112 := by
          rcases hv with hv | hv <;> omega
        have hcont : utf8Cont3Ok (0xF0 + c.toNat / 262144) (0x80 + c.toNat / 4096 % 64) = true := by
          simp only [utf8Cont3Ok]
          by_cases hq0 : 0xF0 + c.toNat / 262144 = 0xF0
          · rw [if_pos hq0, decide_eq_true_eq]
            omega
          · by_cases hq4 : 0xF0 + c.toNat / 262144 = 0xF4
            · rw [if_neg hq0, if_pos hq4, decide_eq_true_eq]
              omega
            · rw [if_neg hq0, if_neg hq4, decide_eq_true_eq]
              omega
        refine ⟨0xF0 + c.toNat / 262144, (0x80 + c.toNat / 4096 % 64) ::
          (0x80 + c.toNat / 64 % 64) :: (0x80 + c.toNat % 64) :: bs,
          by simp [utf8EncodeChar, h1, h2, h3], ?_⟩
        simp only [utf8DecodeOne]
        rw [if_neg (by omega), if_neg (by omega), if_neg (by omega), if_neg (by omega),
          if_pos (by omega)]
        rw [if_pos ⟨hcont, by omega, by omega⟩]
        rw [show (0xF0 + c.toNat / 262144 - 0xF0) * 262144 +
            (0x80 + c.toNat / 4096 % 64 - 0x80) * 4096 + (0x80 + c.toNat / 64 % 64 - 0x80) * 64 +
            (0x80 + c.toNat % 64 - 0x80) = c.toNat from by omega, hofn]

/-- The fuelled strict decoder inverts encoding when the fuel covers the
byte count. -/
theorem utf8Fuel_encode : ∀ (cs : List Char) (f : Nat), (utf8Encode cs).length ≤ f →
    utf8DecodeStrictFuel f (utf8Encode cs) = some cs
  | [], f, _ => by cases f <;> rfl
  | c :: rest, f, hf => by
    obtain ⟨b0, t, heq, hdec⟩ := utf8DecodeOne_encodeChar c (utf8Encode rest)
    have henc : utf8Encode (c :: rest) = utf8EncodeChar c ++ utf8Encode rest := by
      simp [utf8Encode]
    have hlen1 : 1 ≤ (utf8EncodeChar c).length := by
      cases hE : utf8EncodeChar c with
      | nil => exact absurd hE (utf8EncodeChar_ne_nil c)
      | cons x xs => simp
    have hlent : (utf8Encode rest).length ≤ t.length := by
      have := congrArg List.length heq
      simp only [List.length_append, List.length_cons] at this
      omega
    match f with
    | 0 =>
      exfalso
      rw [henc] at hf
      simp only [List.length_append] at hf
      omega
    | f + 1 =>
      rw [henc, heq]
      simp only [utf8DecodeStrictFuel]
      rw [hdec]
      simp only []
      rw [utf8Fuel_encode rest f (by
        rw [henc] at hf
        have := congrArg List.length heq
        simp only [List.length_append, List.length_cons] at hf this
        omega)]
      rfl

/-- Strict UTF-8 decoding inverts encoding. -/
theorem utf8_decode_encode (cs : List Char) : utf8DecodeStrict (utf8Encode cs) = some cs :=
  utf8Fuel_encode cs (utf8Encode cs).length le_rfl

/-- C1: for every plaintext and every 16-byte IV of bytes, a ciphertext
produced by PKCS7-padding the UTF-8 plaintext and encrypting it with
CBC over a block primitive that is length- and byte-preserving and
inverted by the decryption primitive (as AES-128 under the fixed key
is), prepending the IV and base64-encoding, is taken by the full
decrypt_data pipeline (URL and base64 decode, IV split, CBC decryption,
padding removal, UTF-8 decode) back to exactly the original
plaintext. -/
theorem C1_roundtrip (blockEnc blockDec : List Nat → List Nat)
    (hlen : ∀ xs : List Nat, xs.length = 16 → (blockEnc xs).length = 16)
    (hbyte : ∀ xs : List Nat, xs.length = 16 → (∀ y ∈ xs, y < 256) →
      ∀ y ∈ blockEnc xs, y < 256)
    (hinv : ∀ xs : List Nat, xs.length = 16 → blockDec (blockEnc xs) = xs)
    (pt : List Char) (iv : List Nat) (hiv : iv.length = 16) (hivb : ∀ y ∈ iv, y < 256) :
    decrypt_data blockDec (esp32Encrypt blockEnc iv pt) = some pt := by
  have hPmod : (pad (utf8Encode pt) BLOCK_SIZE).length % 16 = 0 := pad_mod _
  have hPb : ∀ a ∈ pad (utf8Encode pt) BLOCK_SIZE, a < 256 := pad_lt _ (utf8Encode_lt pt)
  have hblocks : ∀ b ∈ chunk16 (pad (utf8Encode pt) BLOCK_SIZE),
      b.length = 16 ∧ ∀ y ∈ b, y < 256 := by
    intro b hb
    refine ⟨chunk16_len _ hPmod b hb, fun y hy => hPb y ?_⟩
    have hmem : y ∈ (chunk16 (pad (utf8Encode pt) BLOCK_SIZE)).flatten :=
      List.mem_flatten.mpr ⟨b, hb, hy⟩
    rwa [chunk16_flatten] at hmem
  have hct : ∀ c ∈ cbcEncryptAux blockEnc iv (chunk16 (pad (utf8Encode pt) BLOCK_SIZE)),
      c.length = 16 ∧ ∀ y ∈ c, y < 256 :=
    cbcEncryptAux_spec blockEnc hlen hbyte _ iv hiv hivb hblocks
  have hctmod : (cbcEncrypt blockEnc iv (pad (utf8Encode pt) BLOCK_SIZE)).length % 16 = 0 :=
    flatten16_mod _ (fun b hb => (hct b hb).1)
  have hctb : ∀ y ∈ cbcEncrypt blockEnc iv (pad (utf8Encode pt) BLOCK_SIZE), y < 256 := by
    intro y hy
    simp only [cbcEncrypt] at hy
    rw [List.mem_flatten] at hy
    obtain ⟨c, hc, hyc⟩ := hy
    exact (hct c hc).2 y hyc
  have hcomb : ∀ a ∈ iv ++ cbcEncrypt blockEnc iv (pad (utf8Encode pt) BLOCK_SIZE), a < 256 := by
    intro a ha
    rw [List.mem_append] at ha
    rcases ha with ha | ha
    · exact hivb a ha
    · exact hctb a ha
  have htake : (iv ++ cbcEncrypt blockEnc iv (pad (utf8Encode pt) BLOCK_SIZE)).take 16 = iv := by
    rw [show (16 : Nat) = iv.length from hiv.symm]
    exact List.take_left iv _
  have hdrop : (iv ++ cbcEncrypt blockEnc iv (pad (utf8Encode pt) BLOCK_SIZE)).drop 16 =
      cbcEncrypt blockEnc iv (pad (utf8Encode pt) BLOCK_SIZE) := by
    rw [show (16 : Nat) = iv.length from hiv.symm]
    exact List.drop_left iv _
  have h16 : ¬ (iv ++ cbcEncrypt blockEnc iv (pad (utf8Encode pt) BLOCK_SIZE)).length < 16 := by
    rw [List.length_append, hiv]
    omega
  have hcbc : cbcDecrypt blockDec iv (cbcEncrypt blockEnc iv (pad (utf8Encode pt) BLOCK_SIZE)) =
      pad (utf8Encode pt) BLOCK_SIZE := by
    simp only [cbcDecrypt, cbcEncrypt]
    rw [chunk16_of_flatten _ (fun b hb => (hct b hb).1),
      cbcDecryptAux_encryptAux blockEnc blockDec hlen hbyte hinv _ iv hiv hivb hblocks,
      chunk16_flatten]
  simp only [esp32Encrypt, decrypt_data, preprocess_encode _ hcomb, b64decode_encode _ hcomb,
    htake, hdrop, h16, hctmod, hcbc, removePadding_pad, utf8_decode_encode]
  simp

/-- Closed instance of C1 with the identity block primitive, the zero
IV and a one-character plaintext. -/
theorem C1_roundtrip_witness :
    decrypt_data (fun b => b) (esp32Encrypt (fun b => b) (List.replicate 16 0) ['A']) =
      some ['A'] :=
  C1_roundtrip (fun b => b) (fun b => b) (fun _ h => h) (fun _ _ hb => hb) (fun _ _ => rfl)
    ['A'] (List.replicate 16 0) (by decide)
    (by
      intro y hy
      rw [List.mem_replicate] at hy
      omega)
